import Mathlib

/-!
Verification of the clicky kanban-board core (domain `Board`/`Column`/`Card`,
application-layer `CardService`, and the TUI `App` submit path) against its
natural-language specification.  The Rust source is shallowly embedded:
structs become structures, `&mut self` methods become functions returning the
updated value, `Utc::now()` timestamps become an explicit `now : Nat`
argument, and the file-backed storage collaborator becomes an in-memory
`Store` value threaded through the service operations.
-/

namespace Clicky

/-! ### Decimal formatting

The Rust source formats card numbers with `format!("{}-{:03}", prefix, n)`.
We embed decimal rendering from first principles so that injectivity of the
generated IDs is provable. -/

/-- Decimal digits (least significant first), structurally recursive on a
fuel argument so that it evaluates by kernel reduction; fuel of at least
`n` yields all digits. -/
def digitsRevFuel : Nat → Nat → List Nat
  | 0, _ => []
  | _ + 1, 0 => []
  | fuel + 1, n + 1 => ((n + 1) % 10) :: digitsRevFuel fuel ((n + 1) / 10)

/-- Decimal digits of `n`, least significant first (empty for `0`). -/
def digitsRev (n : Nat) : List Nat := digitsRevFuel n n

/-- Recombine a least-significant-first digit list into a number. -/
def undigits : List Nat → Nat
  | [] => 0
  | d :: ds => d + 10 * undigits ds

/-- The decimal character list of `n`, most significant digit first.
Embeds Rust's decimal `Display` for unsigned integers. -/
def natDecimal (n : Nat) : List Char :=
  if n = 0 then [ '0' ] else ((digitsRev n).reverse.map Nat.digitChar)

/-- Embeds Rust `format!("{:03}", n)`: decimal, left-padded with zeros to
width 3 (numbers of four or more digits are printed in full). -/
def formatNum3 (n : Nat) : String :=
  String.mk (List.replicate (3 - (natDecimal n).length) '0' ++ natDecimal n)

/-- Inverse of `Nat.digitChar` on decimal digit characters. -/
def charDigit (c : Char) : Nat := c.toNat - Char.toNat '0'

/-- Parse a character list as a decimal numeral (used only in proofs, to
recover the number from its zero-padded rendering). -/
def parseNatChars (l : List Char) : Nat := undigits ((l.map charDigit).reverse)

theorem undigits_digitsRevFuel :
    ∀ (fuel n : Nat), n ≤ fuel → undigits (digitsRevFuel fuel n) = n := by
  intro fuel
  induction fuel with
  | zero =>
    intro n h
    have : n = 0 := Nat.le_zero.mp h
    subst this
    rfl
  | succ f ih =>
    intro n h
    match n with
    | 0 => rfl
    | m + 1 =>
      show undigits (((m + 1) % 10) :: digitsRevFuel f ((m + 1) / 10)) = m + 1
      have hdiv : (m + 1) / 10 ≤ f := by
        have := Nat.div_lt_self (Nat.succ_pos m) (show 1 < 10 by decide)
        omega
      rw [undigits, ih ((m + 1) / 10) hdiv]
      exact Nat.mod_add_div (m + 1) 10

theorem undigits_digitsRev (n : Nat) : undigits (digitsRev n) = n :=
  undigits_digitsRevFuel n n (Nat.le_refl n)

theorem digitsRevFuel_lt_ten :
    ∀ (fuel n : Nat), ∀ d ∈ digitsRevFuel fuel n, d < 10 := by
  intro fuel
  induction fuel with
  | zero => intro n d hd; simp [digitsRevFuel] at hd
  | succ f ih =>
    intro n d hd
    match n with
    | 0 => simp [digitsRevFuel] at hd
    | m + 1 =>
      rcases List.mem_cons.mp hd with h | h
      · subst h; exact Nat.mod_lt _ (by decide)
      · exact ih ((m + 1) / 10) d h

theorem digitsRev_lt_ten (n : Nat) : ∀ d ∈ digitsRev n, d < 10 :=
  digitsRevFuel_lt_ten n n

theorem charDigit_digitChar : ∀ d < 10, charDigit (Nat.digitChar d) = d := by decide

theorem undigits_append (l₁ l₂ : List Nat) :
    undigits (l₁ ++ l₂) = undigits l₁ + 10 ^ l₁.length * undigits l₂ := by
  induction l₁ with
  | nil => simp [undigits]
  | cons d ds ih =>
    simp only [List.cons_append, undigits, List.append_eq, ih, List.length_cons]
    ring

theorem undigits_replicate_zero (k : Nat) : undigits (List.replicate k 0) = 0 := by
  induction k with
  | zero => rfl
  | succ k ih => simp [List.replicate, undigits, ih]

theorem parseNatChars_formatNum3 (n : Nat) : parseNatChars (formatNum3 n).data = n := by
  have hdata : (formatNum3 n).data
      = List.replicate (3 - (natDecimal n).length) '0' ++ natDecimal n := rfl
  rw [hdata]
  unfold parseNatChars
  rw [List.map_append, List.map_replicate, List.reverse_append, List.reverse_replicate]
  have hzero : charDigit '0' = 0 := rfl
  rw [hzero]
  by_cases h0 : n = 0
  · subst h0
    simp [natDecimal, undigits_append, undigits_replicate_zero, charDigit, undigits]
  · have hmap : (natDecimal n).map charDigit = (digitsRev n).reverse := by
      unfold natDecimal
      rw [if_neg h0, List.map_map]
      have : ∀ d ∈ (digitsRev n).reverse, (charDigit ∘ Nat.digitChar) d = id d := by
        intro d hd
        have : d < 10 := digitsRev_lt_ten n d (List.mem_reverse.mp hd)
        simpa using charDigit_digitChar d this
      rw [List.map_congr_left this, List.map_id]
    rw [hmap, List.reverse_reverse, undigits_append, undigits_replicate_zero,
      undigits_digitsRev]
    ring

/-- Embeds Rust `format!("{}-{:03}", prefix, n)` from `Board::generate_card_id`. -/
def mkCardId (pre : String) (n : Nat) : String := pre ++ "-" ++ formatNum3 n

theorem mkCardId_inj (pre : String) {a b : Nat} (h : mkCardId pre a = mkCardId pre b) :
    a = b := by
  have hd : (pre ++ "-" ++ formatNum3 a).data = (pre ++ "-" ++ formatNum3 b).data :=
    congrArg String.data h
  have hl : (pre.data ++ "-".data) ++ (formatNum3 a).data
      = (pre.data ++ "-".data) ++ (formatNum3 b).data := by
    simpa [String.data_append, List.append_assoc] using hd
  have hf : (formatNum3 a).data = (formatNum3 b).data := List.append_cancel_left hl
  calc a = parseNatChars (formatNum3 a).data := (parseNatChars_formatNum3 a).symm
    _ = parseNatChars (formatNum3 b).data := by rw [hf]
    _ = b := parseNatChars_formatNum3 b

/-! ### List helpers shared by the embedding -/

/-- Embeds Rust `char::is_whitespace`: the Unicode `White_Space` property.
Its extension is this fixed set of code points (stable across Unicode
versions): U+0009..U+000D, U+0020, U+0085, U+00A0, U+1680,
U+2000..U+200A, U+2028, U+2029, U+202F, U+205F, U+3000. -/
def is_whitespace (c : Char) : Bool :=
  (9 ≤ c.toNat && c.toNat ≤ 13) || c.toNat == 32 || c.toNat == 133 ||
  c.toNat == 160 || c.toNat == 5760 ||
  (8192 ≤ c.toNat && c.toNat ≤ 8202) ||
  c.toNat == 8232 || c.toNat == 8233 || c.toNat == 8239 ||
  c.toNat == 8287 || c.toNat == 12288

/-- Strip Unicode whitespace from both ends of a character list. -/
def trimChars (l : List Char) : List Char :=
  ((l.dropWhile is_whitespace).reverse.dropWhile is_whitespace).reverse

/-- Embeds Rust `str::trim` (strips characters with the Unicode
`White_Space` property, i.e. `char::is_whitespace`, from both ends). -/
def strTrim (s : String) : String := String.mk (trimChars s.data)

/-- Apply `f` to the first element of the list satisfying `p`, leaving the
rest unchanged.  Embeds the Rust pattern
`if let Some(x) = v.iter_mut().find(|x| p(x)) { mutate x }`. -/
def updateFirst (p : α → Bool) (f : α → α) : List α → List α
  | [] => []
  | x :: xs => if p x then f x :: xs else x :: updateFirst p f xs

/-- Swap the entries at positions `i` and `j` of a list of strings. -/
def listSwap (l : List String) (i j : Nat) : List String :=
  (l.set i (l.getD j "")).set j (l.getD i "")

/-! ### Domain entities (src/domain/card.rs, column.rs, board.rs) -/

/-- Embeds `Card` from src/domain/card.rs (timestamps as `Nat`). -/
structure Card where
  id : String
  title : String
  description : Option String
  column_id : String
  assignee : Option String
  created_at : Nat
  updated_at : Nat
deriving Repr, DecidableEq

/-- Embeds `Card::new`: both timestamps set to `now`, description and
assignee unset. -/
def Card.new (id title column_id : String) (now : Nat) : Card :=
  { id := id, title := title, description := none, column_id := column_id,
    assignee := none, created_at := now, updated_at := now }

/-- Embeds `Card::move_to`. -/
def Card.move_to (c : Card) (column_id : String) (now : Nat) : Card :=
  { c with column_id := column_id, updated_at := now }

/-- Embeds `Card::set_title`. -/
def Card.set_title (c : Card) (title : String) (now : Nat) : Card :=
  { c with title := title, updated_at := now }

/-- Embeds `Card::set_description`. -/
def Card.set_description (c : Card) (description : Option String) (now : Nat) : Card :=
  { c with description := description, updated_at := now }

/-- Embeds `Card::set_assignee`. -/
def Card.set_assignee (c : Card) (assignee : Option String) (now : Nat) : Card :=
  { c with assignee := assignee, updated_at := now }

/-- Embeds `Column` from src/domain/column.rs. -/
structure Column where
  id : String
  name : String
  order : Nat
  cards : List String
deriving Repr, DecidableEq

/-- Embeds `Column::new`. -/
def Column.new (id name : String) (order : Nat) : Column :=
  { id := id, name := name, order := order, cards := [] }

/-- Embeds `Column::add_card`: pushes at the end unless the ID is already
present (idempotent). -/
def Column.add_card (col : Column) (card_id : String) : Column :=
  if col.cards.contains card_id then col
  else { col with cards := col.cards ++ [card_id] }

/-- Embeds `Column::remove_card`: `position` + `Vec::remove`, returning
whether the ID was present. -/
def Column.remove_card (col : Column) (card_id : String) : Column × Bool :=
  match col.cards.findIdx? (fun id => id == card_id) with
  | some pos => ({ col with cards := col.cards.eraseIdx pos }, true)
  | none => (col, false)

/-- Embeds `Column::has_card`. -/
def Column.has_card (col : Column) (card_id : String) : Bool :=
  col.cards.contains card_id

/-- Embeds `Column::card_count`. -/
def Column.card_count (col : Column) : Nat := col.cards.length

/-- Modelled from the spec: `Column::move_card_up` is named by the spec and
exercised by src/domain/column_tests.rs, but its body is missing from
src/domain/column.rs.  Per the spec it swaps the given card ID with its
previous neighbor in the ordered `cards` sequence and returns true; it
returns false with no mutation when the card is absent or already first. -/
def Column.move_card_up (col : Column) (card_id : String) : Column × Bool :=
  match col.cards.findIdx? (fun id => id == card_id) with
  | none => (col, false)
  | some i =>
    if i = 0 then (col, false)
    else ({ col with cards := listSwap col.cards i (i - 1) }, true)

/-- Modelled from the spec: `Column::move_card_down` (missing from
src/domain/column.rs like `move_card_up`) swaps the given card ID with its
next neighbor and returns true; it returns false with no mutation when the
card is absent or already last. -/
def Column.move_card_down (col : Column) (card_id : String) : Column × Bool :=
  match col.cards.findIdx? (fun id => id == card_id) with
  | none => (col, false)
  | some i =>
    if i + 1 = col.cards.length then (col, false)
    else ({ col with cards := listSwap col.cards i (i + 1) }, true)

/-- Embeds `Board` from src/domain/board.rs (timestamps as `Nat`). -/
structure Board where
  id : String
  name : String
  card_id_prefix : String
  next_card_number : Nat
  columns : List Column
  cards : List Card
  created_at : Nat
  updated_at : Nat
deriving Repr, DecidableEq

/-- Embeds `Board::generate_prefix` with its two Unicode primitives left as
parameters: `is_alphabetic` stands for Rust `char::is_alphabetic` (the
Unicode `Alphabetic` property) and `to_uppercase` for Rust
`str::to_uppercase` (full Unicode uppercasing of the collected string),
whose character tables are not reproduced here.  The pipeline mirrors the
source exactly: filter alphabetic characters, take 3, collect, uppercase. -/
def generate_prefix_u (is_alphabetic : Char → Bool)
    (to_uppercase : String → String) (board_id : String) : String :=
  to_uppercase (String.mk ((board_id.data.filter is_alphabetic).take 3))

/-- Characterwise ASCII uppercasing.  On a string of ASCII characters this
is exactly what Rust `str::to_uppercase` computes (no ASCII character has a
multi-character or non-ASCII uppercase mapping). -/
def asciiUpper (s : String) : String := String.mk (s.data.map Char.toUpper)

/-- `Board::generate_prefix` instantiated at the ASCII restrictions of the
two Unicode primitives: `Char.isAlpha` agrees with the `Alphabetic`
property on ASCII characters, and `asciiUpper` with `str::to_uppercase` on
ASCII strings, so this instantiation is exact on ASCII board ids
(`C6_prefix_derivation` proves the bridge to `generate_prefix_u`). -/
def Board.generate_prefix (board_id : String) : String :=
  generate_prefix_u (fun c => c.isAlpha) asciiUpper board_id

/-- Embeds `Board::new`: three default columns, counter starting at 1. -/
def Board.new (id name : String) (now : Nat) : Board :=
  { id := id, name := name,
    card_id_prefix := Board.generate_prefix id,
    next_card_number := 1,
    columns := [Column.new "todo" "To Do" 0,
                Column.new "in_progress" "In Progress" 1,
                Column.new "done" "Done" 2],
    cards := [], created_at := now, updated_at := now }

/-- Embeds `Board::generate_card_id`: formats `PREFIX-NNN` from the counter,
then increments the counter. -/
def Board.generate_card_id (b : Board) (now : Nat) : String × Board :=
  ( mkCardId b.card_id_prefix b.next_card_number,
    { b with next_card_number := b.next_card_number + 1, updated_at := now } )

/-- Embeds `Board::create_card`: target column defaults to "todo"; the card
is appended to `cards`, and the column (if it exists — no validation here)
gains the ID.  Returns the generated ID. -/
def Board.create_card (b : Board) (title : String)
    (description assignee column_id : Option String) (now : Nat) : String × Board :=
  let gen := b.generate_card_id now
  let card_id := gen.1
  let b₁ := gen.2
  let target_column := column_id.getD "todo"
  let card := { Card.new card_id title target_column now with
                description := description, assignee := assignee }
  ( card_id,
    { b₁ with
      columns := updateFirst (fun c => c.id == target_column)
        (fun c => c.add_card card_id) b₁.columns,
      cards := b₁.cards ++ [card],
      updated_at := now } )

/-- Embeds `Board::get_card`. -/
def Board.get_card (b : Board) (card_id : String) : Option Card :=
  b.cards.find? (fun c => c.id == card_id)

/-- Embeds `Board::move_card`: false if the target column or the card is
missing; otherwise removes the ID from the (first) column matching the
card's current `column_id`, appends it to the target column, and updates
the card. -/
def Board.move_card (b : Board) (card_id target_column_id : String) (now : Nat) :
    Board × Bool :=
  if !(b.columns.any (fun c => c.id == target_column_id)) then (b, false)
  else
    match b.cards.find? (fun c => c.id == card_id) with
    | none => (b, false)
    | some card =>
      let source_column_id := card.column_id
      let cols₁ := updateFirst (fun c => c.id == source_column_id)
        (fun c => (c.remove_card card_id).1) b.columns
      let cols₂ := updateFirst (fun c => c.id == target_column_id)
        (fun c => c.add_card card_id) cols₁
      let cards := updateFirst (fun c => c.id == card_id)
        (fun c => c.move_to target_column_id now) b.cards
      ({ b with columns := cols₂, cards := cards, updated_at := now }, true)

/-- Embeds `Board::delete_card`: the Rust code takes the position of the
first card with the given ID and removes it (`Vec::remove`), which is
exactly `List.eraseP` on the first match; the owning column loses the ID. -/
def Board.delete_card (b : Board) (card_id : String) (now : Nat) : Board × Bool :=
  match b.cards.find? (fun c => c.id == card_id) with
  | none => (b, false)
  | some card =>
    let cols := updateFirst (fun c => c.id == card.column_id)
      (fun c => (c.remove_card card_id).1) b.columns
    ({ b with columns := cols,
              cards := b.cards.eraseP (fun c => c.id == card_id),
              updated_at := now }, true)

/-- Embeds `Board::add_column`: push, then stable sort by `order`. -/
def Board.add_column (b : Board) (id name : String) (order : Nat) (now : Nat) : Board :=
  { b with
    columns := (b.columns ++ [Column.new id name order]).mergeSort
      (fun c₁ c₂ => c₁.order ≤ c₂.order),
    updated_at := now }

/-- Embeds `Board::remove_column`: refuses on the last column or an unknown
ID; otherwise moves each card of the doomed column (in order) to the first
column with a different ID, then removes the column.  The `none` branch of
the second `find?` corresponds to the Rust `unwrap` and is unreachable when
column IDs are distinct. -/
def Board.remove_column (b : Board) (column_id : String) (now : Nat) : Board × Bool :=
  if b.columns.length ≤ 1 then (b, false)
  else
    match b.columns.find? (fun c => c.id == column_id) with
    | none => (b, false)
    | some column =>
      let cards_to_move := column.cards
      match b.columns.find? (fun c => c.id != column_id) with
      | none => (b, false)
      | some first =>
        let b₁ := cards_to_move.foldl
          (fun acc card_id => (acc.move_card card_id first.id now).1) b
        ({ b₁ with columns := b₁.columns.eraseP (fun c => c.id == column_id),
                   updated_at := now }, true)

/-- Embeds `Board::get_cards_in_column`. -/
def Board.get_cards_in_column (b : Board) (column_id : String) : List Card :=
  b.cards.filter (fun c => c.column_id == column_id)

/-! ### Application layer (src/application/card_service.rs)

The file-backed storage collaborator is embedded as an in-memory `Store`
holding the persisted board; `load` reads it and `save` replaces it.  Each
service operation threads the store explicitly: a Rust `return Err(..)`
before the `save` call leaves the store untouched. -/

/-- The persisted state behind `BoardService::load`/`save`. -/
structure Store where
  board : Board
deriving Repr, DecidableEq

/-- Embeds `BoardService::load`. -/
def loadBoard (s : Store) : Board := s.board

/-- Embeds `BoardService::save`. -/
def saveBoard (_ : Store) (b : Board) : Store := { board := b }

/-- Embeds `CardServiceError` (the storage/board-service variants are not
reachable in this embedding, where loading always succeeds). -/
inductive CardServiceError where
  | CardNotFound (id : String)
  | ColumnNotFound (id : String)
  | InvalidData (msg : String)
deriving Repr, DecidableEq

/-- Embeds `CreatedCardInfo`. -/
structure CreatedCardInfo where
  card_id : String
  board : Board
deriving Repr, DecidableEq

/-- Embeds `CardService::create`: validates an explicitly given column
before calling `Board::create_card`, then saves. -/
def CardService.create (title : String) (description assignee column_id : Option String)
    (now : Nat) (store : Store) : Store × Except CardServiceError CreatedCardInfo :=
  let board := loadBoard store
  match column_id with
  | some col_id =>
    if board.columns.any (fun c => c.id == col_id) then
      let res := board.create_card title description assignee column_id now
      (saveBoard store res.2, Except.ok { card_id := res.1, board := res.2 })
    else (store, Except.error (CardServiceError.ColumnNotFound col_id))
  | none =>
    let res := board.create_card title description assignee column_id now
    (saveBoard store res.2, Except.ok { card_id := res.1, board := res.2 })

/-- Embeds `CardService::move_to`: validates card then column, moves, saves. -/
def CardService.move_to (card_id column_id : String) (now : Nat) (store : Store) :
    Store × Except CardServiceError Board :=
  if ((loadBoard store).get_card card_id).isNone then
    (store, Except.error (CardServiceError.CardNotFound card_id))
  else if !((loadBoard store).columns.any (fun c => c.id == column_id)) then
    (store, Except.error (CardServiceError.ColumnNotFound column_id))
  else if !((loadBoard store).move_card card_id column_id now).2 then
    (store, Except.error (CardServiceError.CardNotFound card_id))
  else
    (saveBoard store ((loadBoard store).move_card card_id column_id now).1,
     Except.ok ((loadBoard store).move_card card_id column_id now).1)

/-- The setter cascade of `CardService::update` applied to the found card. -/
def Card.apply_updates (c : Card) (title : Option String)
    (description assignee : Option (Option String)) (now : Nat) : Card :=
  let c₁ := match title with
    | some new_title => c.set_title new_title now
    | none => c
  let c₂ := match description with
    | some new_description => c₁.set_description new_description now
    | none => c₁
  match assignee with
  | some new_assignee => c₂.set_assignee new_assignee now
  | none => c₂

/-- Embeds `CardService::update`: errors if the card is missing, otherwise
applies the requested setters to the (first) matching card and saves. -/
def CardService.update (card_id : String) (title : Option String)
    (description assignee : Option (Option String)) (now : Nat) (store : Store) :
    Store × Except CardServiceError Board :=
  if ((loadBoard store).get_card card_id).isNone then
    (store, Except.error (CardServiceError.CardNotFound card_id))
  else
    (saveBoard store { loadBoard store with
        cards := updateFirst (fun c => c.id == card_id)
          (fun c => c.apply_updates title description assignee now)
          (loadBoard store).cards },
     Except.ok { loadBoard store with
        cards := updateFirst (fun c => c.id == card_id)
          (fun c => c.apply_updates title description assignee now)
          (loadBoard store).cards })

/-- Embeds `CardService::delete`: errors (without saving) if
`Board::delete_card` reports the card missing. -/
def CardService.delete (card_id : String) (now : Nat) (store : Store) :
    Store × Except CardServiceError Board :=
  if !((loadBoard store).delete_card card_id now).2 then
    (store, Except.error (CardServiceError.CardNotFound card_id))
  else
    (saveBoard store ((loadBoard store).delete_card card_id now).1,
     Except.ok ((loadBoard store).delete_card card_id now).1)

/-! ### TUI application state (src/cli/tui/app.rs)

Only the parts the claims touch are embedded: the `App` struct and the
`submit_card` path.  `AppState` is the view enum used throughout
src/cli/tui (its variants are taken from their uses in app.rs, mod.rs and
ui.rs); the `board_path` field is replaced by the `Store` it designates. -/

/-- The view states used by src/cli/tui. -/
inductive AppState where
  | Board
  | CardDetail
  | CreateCard
  | EditCard
  | ConfirmDelete
  | MoveCard
  | Help
deriving Repr, DecidableEq

/-- Embeds `Focus` (columns vs cards). -/
inductive Focus where
  | Columns
  | Cards
deriving Repr, DecidableEq

/-- Embeds `InputMode`. -/
inductive InputMode where
  | Normal
  | Editing
deriving Repr, DecidableEq

/-- Embeds `FormField`. -/
inductive FormField where
  | Title
  | Description
  | Assignee
deriving Repr, DecidableEq

/-- Embeds `CardFormData` from src/cli/tui/state.rs. -/
structure CardFormData where
  title : String
  description : String
  assignee : String
  current_field : FormField
  input_mode : InputMode
deriving Repr, DecidableEq

/-- Embeds `CardFormData::default()`. -/
def CardFormData.default : CardFormData :=
  { title := "", description := "", assignee := "",
    current_field := FormField.Title, input_mode := InputMode.Normal }

/-- Embeds `CardFormData::is_valid`. -/
def CardFormData.is_valid (d : CardFormData) : Bool :=
  !(strTrim d.title).data.isEmpty

/-- Embeds the TUI `App` struct (src/cli/tui/app.rs). -/
structure App where
  state : AppState
  focus : Focus
  input_mode : InputMode
  store : Store
  board : Option Board
  selected_column : Nat
  selected_card : Option Nat
  selected_target_column : Nat
  input : String
  cursor_position : Nat
  error_message : Option String
  show_help : Bool
  form_field : FormField
  form_data : CardFormData
  editing_card_id : Option String
deriving Repr, DecidableEq

/-- Embeds `App::get_current_column`. -/
def App.get_current_column (app : App) : Option String :=
  app.board.bind (fun b => (b.columns.get? app.selected_column).map Column.id)

/-- Embeds `App::clear_form`. -/
def App.clear_form (app : App) : App :=
  { app with form_data := CardFormData.default, form_field := FormField.Title,
             input_mode := InputMode.Normal, editing_card_id := none }

/-- Embeds `App::load_board` (the store always holds a board here, so the
missing-board branch of the Rust code is not represented). -/
def App.load_board (app : App) : App :=
  { app with board := some (loadBoard app.store), error_message := none }

/-- Embeds `App::submit_card`: an empty post-trim title only sets an error
message; otherwise the card is created through `CardService::create`, the
board reloaded, the form cleared, and the view returns to the board.  A
service error propagates (Rust `?`) without touching the app. -/
def App.submit_card (app : App) (now : Nat) : App × Except CardServiceError Unit :=
  if (strTrim app.form_data.title).data.isEmpty then
    ({ app with error_message := some "Title is required" }, Except.ok ())
  else
    match CardService.create (strTrim app.form_data.title)
      (if (strTrim app.form_data.description).data.isEmpty then none
       else some app.form_data.description)
      (if (strTrim app.form_data.assignee).data.isEmpty then none
       else some app.form_data.assignee)
      (some ((app.get_current_column).getD "todo")) now app.store with
    | (_, Except.error e) => (app, Except.error e)
    | (store₁, Except.ok _) =>
      ({ App.clear_form (App.load_board { app with store := store₁ }) with
          state := AppState.Board }, Except.ok ())

/-! ### The cross-collection invariant and operation sequences -/

/-- The cross-collection invariant of §3 of the spec: every card's
`column_id` names exactly one column; that column lists the card's ID
exactly once and no other column lists it; no column lists an ID of a
non-existent card; card IDs are unique. -/
def Board.invariant (b : Board) : Prop :=
  (∀ card ∈ b.cards,
      (b.columns.filter (fun col => col.id == card.column_id)).length = 1) ∧
  (∀ card ∈ b.cards, ∀ col ∈ b.columns,
      col.cards.count card.id = if col.id = card.column_id then 1 else 0) ∧
  (∀ col ∈ b.columns, ∀ cid ∈ col.cards, ∃ card ∈ b.cards, card.id = cid) ∧
  (b.cards.map Card.id).Nodup

instance decidableInvariant (b : Board) : Decidable b.invariant := by
  unfold Board.invariant
  exact inferInstance

/-- Every card ID on the board was generated from an earlier counter value.
This (together with distinct column IDs) is the auxiliary strengthening
that makes `Board.invariant` inductive. -/
def Board.freshIds (b : Board) : Prop :=
  ∀ card ∈ b.cards, ∃ k ∈ List.range b.next_card_number,
    card.id = mkCardId b.card_id_prefix k

/-- The inductive invariant: the claimed invariant plus distinct column IDs
and freshness of the ID counter. -/
def Board.inductiveInv (b : Board) : Prop :=
  b.invariant ∧ (b.columns.map Column.id).Nodup ∧ b.freshIds

instance decidableInductiveInv (b : Board) : Decidable b.inductiveInv := by
  unfold Board.inductiveInv Board.freshIds
  exact inferInstance

/-- One public mutating `Board` operation (the three the invariant claim
quantifies over). -/
inductive BoardOp where
  | create (title : String) (description assignee column_id : Option String)
  | move (card_id target_column_id : String)
  | delete (card_id : String)
deriving Repr, DecidableEq

/-- Apply one operation at time `now`. -/
def Board.applyOp (b : Board) : BoardOp → Nat → Board
  | BoardOp.create t d a c, now => (b.create_card t d a c now).2
  | BoardOp.move cid t, now => (b.move_card cid t now).1
  | BoardOp.delete cid, now => (b.delete_card cid now).1

/-- The claim's side condition: `create_card` is only invoked with an
existing (possibly defaulted) target column. -/
def Board.opOk (b : Board) : BoardOp → Bool
  | BoardOp.create _ _ _ c => b.columns.any (fun col => col.id == c.getD "todo")
  | BoardOp.move _ _ => true
  | BoardOp.delete _ => true

/-- Run a sequence of timestamped operations. -/
def Board.runOps (b : Board) : List (BoardOp × Nat) → Board
  | [] => b
  | (op, now) :: rest => (b.applyOp op now).runOps rest

/-- Every operation of the sequence satisfies its side condition at the
board it is applied to. -/
def Board.opsOk (b : Board) : List (BoardOp × Nat) → Bool
  | [] => true
  | (op, now) :: rest => b.opOk op && (b.applyOp op now).opsOk rest

/-! ### List toolkit -/

theorem updateFirst_of_forall_not {α} {p : α → Bool} {f : α → α} :
    ∀ {l : List α}, (∀ x ∈ l, p x = false) → updateFirst p f l = l
  | [], _ => rfl
  | x :: xs, h => by
    have hx : p x = false := h x (List.mem_cons_self x xs)
    simp only [updateFirst, hx, Bool.false_eq_true, if_false, List.cons.injEq, true_and]
    exact updateFirst_of_forall_not (fun y hy => h y (List.mem_cons_of_mem x hy))

theorem updateFirst_map {α β} (p : α → Bool) (f : α → α) (g : α → β)
    (hg : ∀ x, g (f x) = g x) : ∀ l : List α, (updateFirst p f l).map g = l.map g
  | [] => rfl
  | x :: xs => by
    by_cases hx : p x
    · simp [updateFirst, hx, hg]
    · simp [updateFirst, hx, updateFirst_map p f g hg xs]

theorem filter_key_length_le_one {α β} [DecidableEq β] (g : α → β) (v : β) :
    ∀ l : List α, (l.map g).Nodup → (l.filter (fun x => g x == v)).length ≤ 1
  | [], _ => by simp
  | x :: xs, h => by
    have hpair : (∀ y ∈ xs, ¬ g y = g x) ∧ (xs.map g).Nodup := by simpa using h
    by_cases hxv : g x = v
    · have hnil : ∀ y ∈ xs, ¬ ((fun x => g x == v) y) = true := by
        intro y hy hyv
        exact hpair.1 y hy (by rw [eq_of_beq hyv, hxv])
      rw [List.filter_cons_of_pos (by simpa using hxv),
        List.filter_eq_nil_iff.mpr hnil]
      simp
    · rw [List.filter_cons_of_neg (by simpa using hxv)]
      exact filter_key_length_le_one g v xs hpair.2

theorem updateFirst_eq_map {α} {p : α → Bool} {f : α → α} :
    ∀ {l : List α}, (l.filter p).length ≤ 1 →
      updateFirst p f l = l.map (fun x => if p x then f x else x)
  | [], _ => rfl
  | x :: xs, h => by
    by_cases hx : p x
    · have hfil : (xs.filter p).length = 0 := by
        rw [List.filter_cons_of_pos hx] at h
        simp only [List.length_cons] at h
        omega
      have hnone : ∀ y ∈ xs, p y = false := by
        intro y hy
        by_contra hpy
        have : y ∈ xs.filter p := List.mem_filter.mpr ⟨hy, by simpa using hpy⟩
        simp [List.length_eq_zero.mp hfil] at this
      have hmapid : xs.map (fun x => if p x then f x else x) = xs := by
        conv_rhs => rw [← List.map_id xs]
        exact List.map_congr_left (fun y hy => by simp [hnone y hy])
      simp [updateFirst, hx, hmapid]
    · rw [List.filter_cons_of_neg hx] at h
      simp only [updateFirst, hx, Bool.false_eq_true, if_false, List.map_cons]
      exact congrArg _ (updateFirst_eq_map h)

theorem count_eraseP_self (a : String) : ∀ l : List String,
    (l.eraseP (fun x => x == a)).count a = l.count a - 1
  | [] => rfl
  | x :: xs => by
    by_cases hx : x = a
    · subst hx
      rw [List.eraseP_cons_of_pos (by simp), List.count_cons_self]
      simp
    · rw [List.eraseP_cons_of_neg (by simpa using hx),
        List.count_cons_of_ne (Ne.symm hx), List.count_cons_of_ne (Ne.symm hx),
        count_eraseP_self a xs]

theorem count_eraseP_ne {a b : String} (hba : b ≠ a) : ∀ l : List String,
    (l.eraseP (fun x => x == a)).count b = l.count b
  | [] => rfl
  | x :: xs => by
    by_cases hx : x = a
    · subst hx
      rw [List.eraseP_cons_of_pos (by simp), List.count_cons_of_ne hba]
    · rw [List.eraseP_cons_of_neg (by simpa using hx)]
      by_cases hxb : x = b
      · subst hxb
        rw [List.count_cons_self, List.count_cons_self, count_eraseP_ne hba xs]
      · rw [List.count_cons_of_ne (Ne.symm hxb), List.count_cons_of_ne (Ne.symm hxb),
          count_eraseP_ne hba xs]

theorem find?_key_of_mem_nodup {α} (g : α → String) :
    ∀ (l : List α), (l.map g).Nodup → ∀ x ∈ l,
      l.find? (fun y => g y == g x) = some x
  | [], _, x, hx => by simp at hx
  | y :: ys, h, x, hx => by
    have hpair : (∀ z ∈ ys, ¬ g z = g y) ∧ (ys.map g).Nodup := by simpa using h
    by_cases hgyx : g y = g x
    · have hxy : x = y := by
        rcases List.mem_cons.mp hx with h1 | h1
        · exact h1
        · exact absurd hgyx.symm (hpair.1 x h1)
      subst hxy
      rw [List.find?_cons_of_pos _ (by simp)]
    · have hx' : x ∈ ys := by
        rcases List.mem_cons.mp hx with h1 | h1
        · exact absurd (h1 ▸ rfl) hgyx
        · exact h1
      rw [List.find?_cons_of_neg _ (by simpa using hgyx)]
      exact find?_key_of_mem_nodup g ys hpair.2 x hx'

theorem findIdx?_go_succ (p : String → Bool) : ∀ (l : List String) (i : Nat),
    List.findIdx? p l (i + 1) = (List.findIdx? p l i).map (fun j => j + 1)
  | [], _ => rfl
  | x :: xs, i => by
    rw [List.findIdx?_cons, List.findIdx?_cons]
    by_cases hx : p x
    · simp [hx]
    · simp only [hx, Bool.false_eq_true, if_false]
      exact findIdx?_go_succ p xs (i + 1)

theorem findIdx?_eraseIdx_eraseP (p : String → Bool) : ∀ l : List String,
    (match l.findIdx? p with
      | some i => l.eraseIdx i
      | none => l) = l.eraseP p
  | [] => rfl
  | x :: xs => by
    rw [List.findIdx?_cons]
    by_cases hx : p x
    · rw [if_pos (by simpa using hx), List.eraseP_cons_of_pos hx]
      rfl
    · rw [if_neg (by simpa using hx), findIdx?_go_succ p xs 0,
        List.eraseP_cons_of_neg hx]
      have ih := findIdx?_eraseIdx_eraseP p xs
      cases hfind : List.findIdx? p xs 0 with
      | none =>
        rw [hfind] at ih
        simpa using congrArg (List.cons x) ih
      | some j =>
        rw [hfind] at ih
        simpa [List.eraseIdx_cons_succ] using congrArg (List.cons x) ih

/-- `Column::remove_card` erases the first occurrence of the ID. -/
theorem remove_card_fst (col : Column) (cid : String) :
    (col.remove_card cid).1
      = { col with cards := col.cards.eraseP (fun x => x == cid) } := by
  unfold Column.remove_card
  have h := findIdx?_eraseIdx_eraseP (fun x => x == cid) col.cards
  cases hfind : col.cards.findIdx? (fun x => x == cid) with
  | none =>
    rw [hfind] at h
    simp only [hfind]
    rw [← h]
  | some i =>
    rw [hfind] at h
    simp only [hfind]
    rw [← h]

theorem remove_card_fst_id (col : Column) (cid : String) :
    ((col.remove_card cid).1).id = col.id := by
  rw [remove_card_fst]

theorem contains_false_of_count_zero {l : List String} {a : String}
    (h : l.count a = 0) : l.contains a = false := by
  rw [List.count_eq_zero] at h
  cases hc : l.contains a with
  | false => rfl
  | true => exact absurd (List.elem_iff.mp hc) h

/-- Explicit description of a successful `Board::move_card` on a
well-formed board: the unique column holding the card loses the ID, the
unique target column gains it at the end, and the card's `column_id`
becomes the target. -/
theorem move_card_spec (b : Board) (cid t : String) (now : Nat) (card : Card)
    (hndcols : (b.columns.map Column.id).Nodup)
    (hndcards : (b.cards.map Card.id).Nodup)
    (hfind : b.cards.find? (fun c => c.id == cid) = some card)
    (htgt : b.columns.any (fun c => c.id == t) = true)
    (hW2 : ∀ col ∈ b.columns,
      col.cards.count card.id = if col.id = card.column_id then 1 else 0) :
    b.move_card cid t now =
      ({ b with
          columns := b.columns.map (fun col =>
            { col with cards :=
                (if col.id = card.column_id
                 then col.cards.eraseP (fun x => x == cid) else col.cards)
                ++ (if col.id = t then [cid] else []) }),
          cards := b.cards.map (fun c =>
            if c.id = cid then c.move_to t now else c),
          updated_at := now }, true) := by
  have hcid : card.id = cid := by
    have := List.find?_some hfind
    exact eq_of_beq this
  have hcards_eq : updateFirst (fun c => c.id == cid)
      (fun c => c.move_to t now) b.cards
      = b.cards.map (fun c => if c.id = cid then c.move_to t now else c) := by
    rw [updateFirst_eq_map (filter_key_length_le_one Card.id cid b.cards hndcards)]
    exact List.map_congr_left (fun c _ => by by_cases h : c.id = cid <;> simp [h])
  have hcols1 : updateFirst (fun c => c.id == card.column_id)
      (fun c => (c.remove_card cid).1) b.columns
      = b.columns.map (fun col =>
          if col.id = card.column_id
          then { col with cards := col.cards.eraseP (fun x => x == cid) }
          else col) := by
    rw [updateFirst_eq_map
      (filter_key_length_le_one Column.id card.column_id b.columns hndcols)]
    exact List.map_congr_left (fun col _ => by
      by_cases h : col.id = card.column_id <;> simp [h, remove_card_fst])
  have hnd1 : ((b.columns.map (fun col =>
      if col.id = card.column_id
      then { col with cards := col.cards.eraseP (fun x => x == cid) }
      else col)).map Column.id).Nodup := by
    rw [List.map_map]
    have : (Column.id ∘ fun col =>
        if col.id = card.column_id
        then { col with cards := col.cards.eraseP (fun x => x == cid) }
        else col) = Column.id := by
      funext col
      by_cases h : col.id = card.column_id <;> simp [h]
    rw [this]
    exact hndcols
  have hcols2 : updateFirst (fun c => c.id == t) (fun c => c.add_card cid)
        (b.columns.map (fun col =>
          if col.id = card.column_id
          then { col with cards := col.cards.eraseP (fun x => x == cid) }
          else col))
      = b.columns.map (fun col =>
          { col with cards :=
              (if col.id = card.column_id
               then col.cards.eraseP (fun x => x == cid) else col.cards)
              ++ (if col.id = t then [cid] else []) }) := by
    rw [updateFirst_eq_map (filter_key_length_le_one Column.id t _ hnd1),
      List.map_map]
    refine List.map_congr_left (fun col hcol => ?_)
    have hcount := hW2 col hcol
    rw [hcid] at hcount
    simp only [Function.comp_apply]
    by_cases hs : col.id = card.column_id
    · rw [if_pos hs, if_pos hs]
      by_cases ht : col.id = t
      · have hzero : (col.cards.eraseP (fun x => x == cid)).count cid = 0 := by
          rw [count_eraseP_self, hcount, if_pos hs]
        have hmem : cid ∉ col.cards.eraseP (fun x => x == cid) :=
          List.count_eq_zero.mp hzero
        rw [if_pos ht]
        simp [Column.add_card, ht, hmem]
      · rw [if_neg ht]
        simp [Column.add_card, ht]
    · rw [if_neg hs, if_neg hs]
      by_cases ht : col.id = t
      · have hzero : col.cards.count cid = 0 := by rw [hcount, if_neg hs]
        have hmem : cid ∉ col.cards := List.count_eq_zero.mp hzero
        rw [if_pos ht]
        simp [Column.add_card, ht, hmem]
      · rw [if_neg ht]
        simp [Column.add_card, ht]
  unfold Board.move_card
  rw [htgt, hfind]
  simp only [Bool.not_true, Bool.false_eq_true, if_false]
  rw [hcols1, hcols2, hcards_eq]

theorem move_card_no_target (b : Board) (cid t : String) (now : Nat)
    (h : b.columns.any (fun c => c.id == t) = false) :
    b.move_card cid t now = (b, false) := by
  unfold Board.move_card
  rw [h]
  rfl

theorem move_card_no_card (b : Board) (cid t : String) (now : Nat)
    (h : b.cards.find? (fun c => c.id == cid) = none) :
    b.move_card cid t now = (b, false) := by
  unfold Board.move_card
  cases hany : b.columns.any (fun c => c.id == t) with
  | false => rfl
  | true =>
    rw [h]
    rfl

theorem delete_card_no_card (b : Board) (cid : String) (now : Nat)
    (h : b.cards.find? (fun c => c.id == cid) = none) :
    b.delete_card cid now = (b, false) := by
  unfold Board.delete_card
  rw [h]

/-- Explicit description of a successful `Board::delete_card`: the unique
column holding the card loses the ID and the card is removed. -/
theorem delete_card_spec (b : Board) (cid : String) (now : Nat) (card : Card)
    (hndcols : (b.columns.map Column.id).Nodup)
    (hfind : b.cards.find? (fun c => c.id == cid) = some card) :
    b.delete_card cid now =
      ({ b with
          columns := b.columns.map (fun col =>
            if col.id = card.column_id
            then { col with cards := col.cards.eraseP (fun x => x == cid) }
            else col),
          cards := b.cards.eraseP (fun c => c.id == cid),
          updated_at := now }, true) := by
  have hcols : updateFirst (fun c => c.id == card.column_id)
      (fun c => (c.remove_card cid).1) b.columns
      = b.columns.map (fun col =>
          if col.id = card.column_id
          then { col with cards := col.cards.eraseP (fun x => x == cid) }
          else col) := by
    rw [updateFirst_eq_map
      (filter_key_length_le_one Column.id card.column_id b.columns hndcols)]
    exact List.map_congr_left (fun col _ => by
      by_cases h : col.id = card.column_id <;> simp [h, remove_card_fst])
  unfold Board.delete_card
  rw [hfind]
  exact congrArg (fun cols =>
    ({ b with
        columns := cols,
        cards := b.cards.eraseP (fun c => c.id == cid),
        updated_at := now }, true)) hcols

/-- `Board::create_card`, written as one record update. -/
theorem create_card_eq (b : Board) (title : String) (d a c : Option String)
    (now : Nat) :
    b.create_card title d a c now =
      ( mkCardId b.card_id_prefix b.next_card_number,
        { b with
          next_card_number := b.next_card_number + 1,
          columns := updateFirst (fun col => col.id == c.getD "todo")
            (fun col => col.add_card (mkCardId b.card_id_prefix b.next_card_number))
            b.columns,
          cards := b.cards ++
            [{ Card.new (mkCardId b.card_id_prefix b.next_card_number) title
                 (c.getD "todo") now with description := d, assignee := a }],
          updated_at := now } ) := rfl

theorem filter_map_id_length (F : Column → Column) (hF : ∀ col, (F col).id = col.id)
    (l : List Column) (v : String) :
    ((l.map F).filter (fun col => col.id == v)).length
      = (l.filter (fun col => col.id == v)).length := by
  rw [List.filter_map, List.length_map]
  congr 1
  exact List.filter_congr (fun col _ => by simp [hF col])

theorem one_le_filter_of_any {l : List Column} {v : String}
    (h : l.any (fun c => c.id == v) = true) :
    1 ≤ (l.filter (fun col => col.id == v)).length := by
  obtain ⟨col, hmem, hcol⟩ := List.any_eq_true.mp h
  have hf : col ∈ l.filter (fun col => col.id == v) := List.mem_filter.mpr ⟨hmem, hcol⟩
  exact List.length_pos.mpr (List.ne_nil_of_mem hf)

/-- `Board::create_card` with an existing target column preserves the
inductive invariant. -/
theorem inv_create (b : Board) (title : String) (d a c : Option String) (now : Nat)
    (hinv : b.inductiveInv)
    (hok : b.columns.any (fun col => col.id == c.getD "todo") = true) :
    ((b.create_card title d a c now).2).inductiveInv := by
  obtain ⟨⟨hW1, hW2, hW3, hW4⟩, hndcols, hfresh⟩ := hinv
  have hfreshNe : ∀ card ∈ b.cards,
      card.id ≠ mkCardId b.card_id_prefix b.next_card_number := by
    intro card hc heq
    obtain ⟨k, hk, hkid⟩ := hfresh card hc
    rw [hkid] at heq
    exact absurd (mkCardId_inj _ heq) (Nat.ne_of_lt (List.mem_range.mp hk))
  have hnid_not_col : ∀ col ∈ b.columns,
      mkCardId b.card_id_prefix b.next_card_number ∉ col.cards := by
    intro col hcol hmem
    obtain ⟨card, hcmem, hcid⟩ := hW3 col hcol _ hmem
    exact hfreshNe card hcmem hcid
  have hnid_not_map :
      mkCardId b.card_id_prefix b.next_card_number ∉ b.cards.map Card.id := by
    intro hmem
    obtain ⟨card, hcmem, hcid⟩ := List.mem_map.mp hmem
    exact hfreshNe card hcmem hcid
  have hcols : updateFirst (fun col => col.id == c.getD "todo")
      (fun col => col.add_card (mkCardId b.card_id_prefix b.next_card_number))
      b.columns
      = b.columns.map (fun col =>
          if col.id = c.getD "todo"
          then { col with cards :=
                  col.cards ++ [mkCardId b.card_id_prefix b.next_card_number] }
          else col) := by
    rw [updateFirst_eq_map
      (filter_key_length_le_one Column.id (c.getD "todo") _ hndcols)]
    refine List.map_congr_left (fun col hcol => ?_)
    by_cases h : col.id = c.getD "todo"
    · have hmem := hnid_not_col col hcol
      simp [h, Column.add_card, hmem]
    · simp [h]
  have hsnd : (b.create_card title d a c now).2
      = { b with
          next_card_number := b.next_card_number + 1,
          columns := b.columns.map (fun col =>
            if col.id = c.getD "todo"
            then { col with cards :=
                    col.cards ++ [mkCardId b.card_id_prefix b.next_card_number] }
            else col),
          cards := b.cards ++
            [{ Card.new (mkCardId b.card_id_prefix b.next_card_number) title
                 (c.getD "todo") now with description := d, assignee := a }],
          updated_at := now } := by
    rw [create_card_eq]
    exact congrArg (fun cols =>
      { b with
        next_card_number := b.next_card_number + 1,
        columns := cols,
        cards := b.cards ++
          [{ Card.new (mkCardId b.card_id_prefix b.next_card_number) title
               (c.getD "todo") now with description := d, assignee := a }],
        updated_at := now }) hcols
  rw [hsnd]
  have hFid : ∀ col : Column,
      ((fun col => if col.id = c.getD "todo"
        then { col with cards :=
                col.cards ++ [mkCardId b.card_id_prefix b.next_card_number] }
        else col) col).id = col.id := by
    intro col
    by_cases h : col.id = c.getD "todo" <;> simp [h]
  refine ⟨⟨?_, ?_, ?_, ?_⟩, ?_, ?_⟩
  · -- W1: every card names exactly one column
    intro card hcard
    rw [filter_map_id_length _ hFid]
    rcases List.mem_append.mp hcard with hold | hnew
    · exact hW1 card hold
    · rw [List.mem_singleton.mp hnew]
      have hle := filter_key_length_le_one Column.id (c.getD "todo") b.columns hndcols
      have hge := one_le_filter_of_any hok
      show (b.columns.filter (fun col => col.id == c.getD "todo")).length = 1
      omega
  · -- W2: membership counts
    intro card hcard col hcol
    obtain ⟨col₀, hcol₀, hcol₀eq⟩ := List.mem_map.mp hcol
    subst hcol₀eq
    rcases List.mem_append.mp hcard with hold | hnew
    · have hcount := hW2 card hold col₀ hcol₀
      have hne := hfreshNe card hold
      by_cases h : col₀.id = c.getD "todo" <;>
        simp [h, List.count_append, hcount, List.count_singleton', Ne.symm hne]
    · rw [List.mem_singleton.mp hnew]
      have hnotin := hnid_not_col col₀ hcol₀
      have hzero : col₀.cards.count (mkCardId b.card_id_prefix b.next_card_number)
          = 0 := List.count_eq_zero.mpr hnotin
      by_cases h : col₀.id = c.getD "todo" <;>
        simp [h, List.count_append, hzero, Card.new]
  · -- W3: no dangling IDs in columns
    intro col hcol cid hcid
    obtain ⟨col₀, hcol₀, hcol₀eq⟩ := List.mem_map.mp hcol
    subst hcol₀eq
    by_cases h : col₀.id = c.getD "todo"
    · rw [if_pos h] at hcid
      rcases List.mem_append.mp hcid with hold | hnew
      · obtain ⟨card, hcmem, hcideq⟩ := hW3 col₀ hcol₀ cid hold
        exact ⟨card, List.mem_append_left _ hcmem, hcideq⟩
      · refine ⟨_, List.mem_append_right _ (List.mem_singleton_self _), ?_⟩
        rw [← List.mem_singleton.mp hnew]
        rfl
    · rw [if_neg h] at hcid
      obtain ⟨card, hcmem, hcideq⟩ := hW3 col₀ hcol₀ cid hcid
      exact ⟨card, List.mem_append_left _ hcmem, hcideq⟩
  · -- W4: card IDs stay unique
    rw [List.map_append]
    rw [List.nodup_append]
    refine ⟨hW4, List.nodup_singleton _, ?_⟩
    intro x hx hy
    have : x = mkCardId b.card_id_prefix b.next_card_number := by
      simpa [Card.new] using hy
    exact hnid_not_map (this ▸ hx)
  · -- column IDs stay distinct
    rw [List.map_map]
    have : (Column.id ∘ fun col =>
        if col.id = c.getD "todo"
        then { col with cards :=
                col.cards ++ [mkCardId b.card_id_prefix b.next_card_number] }
        else col) = Column.id := funext fun col => hFid col
    rw [this]
    exact hndcols
  · -- freshness
    intro card hcard
    rcases List.mem_append.mp hcard with hold | hnew
    · obtain ⟨k, hk, hkid⟩ := hfresh card hold
      exact ⟨k, List.mem_range.mpr
        (Nat.lt_succ_of_lt (List.mem_range.mp hk)), hkid⟩
    · rw [List.mem_singleton.mp hnew]
      exact ⟨b.next_card_number, List.mem_range.mpr (Nat.lt_succ_self _), rfl⟩

/-- `Board::move_card` preserves the inductive invariant. -/
theorem inv_move (b : Board) (cid t : String) (now : Nat) (hinv : b.inductiveInv) :
    ((b.move_card cid t now).1).inductiveInv := by
  obtain ⟨⟨hW1, hW2, hW3, hW4⟩, hndcols, hfresh⟩ := hinv
  cases htgt : b.columns.any (fun c => c.id == t) with
  | false =>
    rw [move_card_no_target b cid t now htgt]
    exact ⟨⟨hW1, hW2, hW3, hW4⟩, hndcols, hfresh⟩
  | true =>
    cases hfind : b.cards.find? (fun c => c.id == cid) with
    | none =>
      rw [move_card_no_card b cid t now hfind]
      exact ⟨⟨hW1, hW2, hW3, hW4⟩, hndcols, hfresh⟩
    | some card =>
      have hcardmem : card ∈ b.cards := List.mem_of_find?_eq_some hfind
      have hcid : card.id = cid := by have h := List.find?_some hfind; exact eq_of_beq h
      have hspec := move_card_spec b cid t now card hndcols hW4 hfind htgt
        (fun col hcol => hW2 card hcardmem col hcol)
      have hfst := congrArg Prod.fst hspec
      rw [hfst]
      have hGid : ∀ cd : Card,
          (if cd.id = cid then cd.move_to t now else cd).id = cd.id := by
        intro cd
        by_cases h : cd.id = cid <;> simp [h, Card.move_to]
      have hExactlyT : (b.columns.filter (fun col => col.id == t)).length = 1 := by
        have hle := filter_key_length_le_one Column.id t b.columns hndcols
        have hge := one_le_filter_of_any htgt
        omega
      refine ⟨⟨?_, ?_, ?_, ?_⟩, ?_, ?_⟩
      · -- W1
        intro card' hcard'
        obtain ⟨cd, hcd, hcdeq⟩ := List.mem_map.mp hcard'
        subst hcdeq
        rw [filter_map_id_length (fun col =>
          { col with cards :=
              (if col.id = card.column_id
               then col.cards.eraseP (fun x => x == cid) else col.cards)
              ++ (if col.id = t then [cid] else []) }) (fun col => rfl)]
        by_cases h : cd.id = cid
        · rw [if_pos h]
          exact hExactlyT
        · rw [if_neg h]
          exact hW1 cd hcd
      · -- W2
        intro card' hcard' col' hcol'
        obtain ⟨cd, hcd, hcdeq⟩ := List.mem_map.mp hcard'
        subst hcdeq
        obtain ⟨col₀, hcol₀, hcol₀eq⟩ := List.mem_map.mp hcol'
        subst hcol₀eq
        by_cases hceq : cd.id = cid
        · have hcdcard : cd = card :=
            List.inj_on_of_nodup_map hW4 hcd hcardmem (hceq.trans hcid.symm)
          subst hcdcard
          have hcount := hW2 cd hcd col₀ hcol₀
          rw [hcid] at hcount
          rw [if_pos hceq]
          show List.count (cd.move_to t now).id
              ((if col₀.id = cd.column_id
                then List.eraseP (fun x => x == cid) col₀.cards else col₀.cards)
               ++ (if col₀.id = t then [cid] else []))
            = if col₀.id = (cd.move_to t now).column_id then 1 else 0
          have hidmove : (cd.move_to t now).id = cid := hcid
          have hcolmove : (cd.move_to t now).column_id = t := rfl
          rw [hidmove, hcolmove, List.count_append]
          by_cases hs : col₀.id = cd.column_id
          · rw [if_pos hs, count_eraseP_self, hcount, if_pos hs]
            by_cases ht : col₀.id = t
            · rw [if_pos ht, if_pos ht]
              simp
            · rw [if_neg ht, if_neg ht]
              simp
          · rw [if_neg hs, hcount, if_neg hs]
            by_cases ht : col₀.id = t
            · rw [if_pos ht, if_pos ht]
              simp
            · rw [if_neg ht, if_neg ht]
              simp
        · rw [if_neg hceq]
          have hcount := hW2 cd hcd col₀ hcol₀
          have hne : cd.id ≠ cid := hceq
          show List.count cd.id
              ((if col₀.id = card.column_id
                then List.eraseP (fun x => x == cid) col₀.cards else col₀.cards)
               ++ (if col₀.id = t then [cid] else []))
            = if col₀.id = cd.column_id then 1 else 0
          rw [List.count_append]
          have h2 : List.count cd.id
              (if col₀.id = t then [cid] else ([] : List String)) = 0 := by
            by_cases ht : col₀.id = t
            · rw [if_pos ht]
              simp [List.count_singleton', Ne.symm hne]
            · rw [if_neg ht]
              rfl
          rw [h2]
          by_cases hs : col₀.id = card.column_id
          · rw [if_pos hs, count_eraseP_ne hne, hcount]
            simp
          · rw [if_neg hs, hcount]
            simp
      · -- W3
        intro col' hcol' cid' hcid'
        obtain ⟨col₀, hcol₀, hcol₀eq⟩ := List.mem_map.mp hcol'
        subst hcol₀eq
        rcases List.mem_append.mp hcid' with hfirstpart | hsecondpart
        · have hsource : cid' ∈ col₀.cards := by
            by_cases hs : col₀.id = card.column_id
            · rw [if_pos hs] at hfirstpart
              exact List.Sublist.mem hfirstpart (List.eraseP_sublist col₀.cards)
            · rwa [if_neg hs] at hfirstpart
          obtain ⟨cd, hcdmem, hcdid⟩ := hW3 col₀ hcol₀ cid' hsource
          refine ⟨if cd.id = cid then cd.move_to t now else cd,
            List.mem_map_of_mem _ hcdmem, ?_⟩
          rw [hGid cd]
          exact hcdid
        · by_cases ht : col₀.id = t
          · rw [if_pos ht] at hsecondpart
            rw [List.mem_singleton.mp hsecondpart]
            refine ⟨if card.id = cid then card.move_to t now else card,
              List.mem_map_of_mem _ hcardmem, ?_⟩
            rw [hGid card]
            exact hcid
          · rw [if_neg ht] at hsecondpart
            simp at hsecondpart
      · -- W4
        rw [List.map_map]
        have : (Card.id ∘ fun cd => if cd.id = cid then cd.move_to t now else cd)
            = Card.id := funext fun cd => hGid cd
        rw [this]
        exact hW4
      · -- column IDs stay distinct
        rw [List.map_map]
        exact hndcols
      · -- freshness
        intro card' hcard'
        obtain ⟨cd, hcd, hcdeq⟩ := List.mem_map.mp hcard'
        subst hcdeq
        obtain ⟨k, hk, hkid⟩ := hfresh cd hcd
        exact ⟨k, hk, by rw [hGid cd]; exact hkid⟩

/-- `Board::delete_card` preserves the inductive invariant. -/
theorem inv_delete (b : Board) (cid : String) (now : Nat) (hinv : b.inductiveInv) :
    ((b.delete_card cid now).1).inductiveInv := by
  obtain ⟨⟨hW1, hW2, hW3, hW4⟩, hndcols, hfresh⟩ := hinv
  cases hfind : b.cards.find? (fun c => c.id == cid) with
  | none =>
    rw [delete_card_no_card b cid now hfind]
    exact ⟨⟨hW1, hW2, hW3, hW4⟩, hndcols, hfresh⟩
  | some card =>
    have hcardmem : card ∈ b.cards := List.mem_of_find?_eq_some hfind
    have hcid : card.id = cid := by have h := List.find?_some hfind; exact eq_of_beq h
    have hspec := delete_card_spec b cid now card hndcols hfind
    have hfst := congrArg Prod.fst hspec
    rw [hfst]
    obtain ⟨cfst, l₁, l₂, hl₁, hpfst, hdecomp, herase⟩ :=
      List.exists_of_eraseP (p := fun c => c.id == cid) hcardmem (by simp [hcid])
    have hcfst : cfst = card := by
      have hcfstmem : cfst ∈ b.cards := hdecomp ▸ by
        exact List.mem_append_right l₁ (List.mem_cons_self cfst l₂)
      exact List.inj_on_of_nodup_map hW4 hcfstmem hcardmem
        ((eq_of_beq hpfst).trans hcid.symm)
    rw [hcfst] at hdecomp
    have hmem_eraseP : ∀ cd : Card, cd ∈ b.cards.eraseP (fun c => c.id == cid) →
        cd ∈ b.cards ∧ cd.id ≠ cid := by
      intro cd hcd
      have hmem : cd ∈ b.cards :=
        List.Sublist.mem hcd (List.eraseP_sublist b.cards)
      refine ⟨hmem, fun hid => ?_⟩
      have hcdcard : cd = card :=
        List.inj_on_of_nodup_map hW4 hmem hcardmem (hid.trans hcid.symm)
      rw [hcdcard] at hcd
      -- the unique card with this ID cannot survive `eraseP`
      rw [herase] at hcd
      have hnodup : ((l₁ ++ card :: l₂).map Card.id).Nodup := hdecomp ▸ hW4
      rw [List.map_append, List.map_cons] at hnodup
      have hnotmem := (List.nodup_append.mp hnodup).2.2
      rcases List.mem_append.mp hcd with h1 | h2
      · exact hnotmem (List.mem_map_of_mem Card.id h1) (List.mem_cons_self _ _)
      · have := (List.nodup_cons.mp (List.nodup_append.mp hnodup).2.1).1
        exact this (List.mem_map_of_mem Card.id h2)
    have hsurvive : ∀ cd : Card, cd ∈ b.cards → cd.id ≠ cid →
        cd ∈ b.cards.eraseP (fun c => c.id == cid) := by
      intro cd hmem hne
      rw [herase]
      rw [hdecomp] at hmem
      rcases List.mem_append.mp hmem with h1 | h2
      · exact List.mem_append_left _ h1
      · rcases List.mem_cons.mp h2 with h3 | h4
        · exact absurd (h3 ▸ hcid) hne
        · exact List.mem_append_right _ h4
    refine ⟨⟨?_, ?_, ?_, ?_⟩, ?_, ?_⟩
    · -- W1
      intro card' hcard'
      rw [filter_map_id_length (fun col =>
        if col.id = card.column_id
        then { col with cards := col.cards.eraseP (fun x => x == cid) }
        else col) (fun col => by
          by_cases h : col.id = card.column_id <;> simp [h])]
      exact hW1 card' (hmem_eraseP card' hcard').1
    · -- W2
      intro card' hcard' col' hcol'
      obtain ⟨hmem, hne⟩ := hmem_eraseP card' hcard'
      obtain ⟨col₀, hcol₀, hcol₀eq⟩ := List.mem_map.mp hcol'
      subst hcol₀eq
      have hcount := hW2 card' hmem col₀ hcol₀
      by_cases hs : col₀.id = card.column_id
      · rw [if_pos hs]
        show List.count card'.id (List.eraseP (fun x => x == cid) col₀.cards)
          = _
        rw [count_eraseP_ne hne, hcount]
      · rw [if_neg hs]
        exact hcount
    · -- W3
      intro col' hcol' cid' hcid'
      obtain ⟨col₀, hcol₀, hcol₀eq⟩ := List.mem_map.mp hcol'
      subst hcol₀eq
      have hcount := hW2 card hcardmem col₀ hcol₀
      rw [hcid] at hcount
      by_cases hs : col₀.id = card.column_id
      · rw [if_pos hs] at hcid'
        have hcidmem : cid' ∈ col₀.cards :=
          List.Sublist.mem hcid' (List.eraseP_sublist col₀.cards)
        have hcidne : cid' ≠ cid := by
          intro heq
          subst heq
          have hmem2 : cid' ∈ col₀.cards.eraseP (fun x => x == cid') := hcid'
          have hzero : (col₀.cards.eraseP (fun x => x == cid')).count cid' = 0 := by
            rw [count_eraseP_self, hcount, if_pos hs]
          have hpos := List.count_pos_iff.mpr hmem2
          omega
        obtain ⟨cd, hcdmem, hcdid⟩ := hW3 col₀ hcol₀ cid' hcidmem
        exact ⟨cd, hsurvive cd hcdmem (hcdid ▸ hcidne), hcdid⟩
      · rw [if_neg hs] at hcid'
        have hcidne : cid' ≠ cid := by
          intro heq
          subst heq
          have hmem2 : cid' ∈ col₀.cards := hcid'
          have hzero : col₀.cards.count cid' = 0 := by
            rw [hcount, if_neg hs]
          have hpos := List.count_pos_iff.mpr hmem2
          omega
        obtain ⟨cd, hcdmem, hcdid⟩ := hW3 col₀ hcol₀ cid' hcid'
        exact ⟨cd, hsurvive cd hcdmem (hcdid ▸ hcidne), hcdid⟩
    · -- W4
      exact List.Nodup.sublist
        (List.Sublist.map Card.id (List.eraseP_sublist b.cards)) hW4
    · -- column IDs stay distinct
      rw [List.map_map]
      have : (Column.id ∘ fun col =>
          if col.id = card.column_id
          then { col with cards := col.cards.eraseP (fun x => x == cid) }
          else col) = Column.id := funext fun col => by
        by_cases h : col.id = card.column_id <;> simp [h]
      rw [this]
      exact hndcols
    · -- freshness
      intro card' hcard'
      exact hfresh card' (hmem_eraseP card' hcard').1

/-- A fresh board satisfies the inductive invariant. -/
theorem inv_new (id name : String) (now : Nat) :
    (Board.new id name now).inductiveInv := by
  refine ⟨⟨?_, ?_, ?_, ?_⟩, ?_, ?_⟩
  · intro card hcard
    simp [Board.new] at hcard
  · intro card hcard
    simp [Board.new] at hcard
  · intro col hcol cid hcid
    simp [Board.new, Column.new] at hcol
    rcases hcol with h | h | h <;> subst h <;> simp [Column.new] at hcid
  · simp [Board.new]
  · show (["todo", "in_progress", "done"] : List String).Nodup
    decide
  · intro card hcard
    simp [Board.new] at hcard

/-- Every allowed operation preserves the inductive invariant. -/
theorem inv_applyOp (b : Board) (op : BoardOp) (now : Nat)
    (hinv : b.inductiveInv) (hok : b.opOk op = true) :
    (b.applyOp op now).inductiveInv := by
  cases op with
  | create t d a c =>
    exact inv_create b t d a c now hinv (by simpa [Board.opOk] using hok)
  | move cid tcol => exact inv_move b cid tcol now hinv
  | delete cid => exact inv_delete b cid now hinv

/-- Sequences of allowed operations preserve the inductive invariant. -/
theorem inv_runOps (b : Board) (ops : List (BoardOp × Nat))
    (hinv : b.inductiveInv) (hok : b.opsOk ops = true) :
    (b.runOps ops).inductiveInv := by
  induction ops generalizing b with
  | nil => exact hinv
  | cons p rest ih =>
    obtain ⟨op, now⟩ := p
    simp only [Board.opsOk, Bool.and_eq_true] at hok
    exact ih (b.applyOp op now) (inv_applyOp b op now hinv hok.1) hok.2

/-! ### Claim theorems -/

/-- C1: for every sequence of Board operations `create_card` (with an
existing target column id), `move_card`, and `delete_card`, starting from
`Board::new`, the cross-collection invariant holds after every operation:
every card's `column_id` equals the id of exactly one column, that column's
cards sequence contains the card's ID exactly once (and no other column
lists it), no column lists an ID of a non-existent card, and card IDs are
unique across `Board.cards`. -/
theorem C1_board_invariant (id name : String) (now : Nat)
    (ops : List (BoardOp × Nat))
    (hok : (Board.new id name now).opsOk ops = true) :
    ((Board.new id name now).runOps ops).invariant :=
  (inv_runOps _ ops (inv_new id name now) hok).1

/-- Witness for C1 at a concrete operation sequence. -/
theorem C1_board_invariant_witness :
    ((Board.new "test" "Test" 0).opsOk
      [(BoardOp.create "Task" none none none, 1),
       (BoardOp.move "TES-001" "in_progress", 2),
       (BoardOp.create "B" none none (some "done"), 3),
       (BoardOp.delete "TES-001", 4)] = true) ∧
    ((Board.new "test" "Test" 0).runOps
      [(BoardOp.create "Task" none none none, 1),
       (BoardOp.move "TES-001" "in_progress", 2),
       (BoardOp.create "B" none none (some "done"), 3),
       (BoardOp.delete "TES-001", 4)]).invariant :=
  ⟨by decide, C1_board_invariant "test" "Test" 0 _ (by decide)⟩

/-- C2: `Board::move_card(card_id, target_column_id)` returns false and
mutates nothing when the target column does not exist or the card does not
exist; otherwise (on a well-formed board) it removes the ID from the source
column's sequence, appends it at the end of the target column's sequence,
sets the card's `column_id` to the target, and returns true. -/
theorem C2_move_card (b : Board) (cid t : String) (now : Nat) :
    (b.columns.any (fun c => c.id == t) = false →
      b.move_card cid t now = (b, false)) ∧
    (b.cards.find? (fun c => c.id == cid) = none →
      b.move_card cid t now = (b, false)) ∧
    (∀ card : Card, b.invariant → (b.columns.map Column.id).Nodup →
      b.cards.find? (fun c => c.id == cid) = some card →
      b.columns.any (fun c => c.id == t) = true →
      b.move_card cid t now =
        ({ b with
            columns := b.columns.map (fun col =>
              { col with cards :=
                  (if col.id = card.column_id
                   then col.cards.eraseP (fun x => x == cid) else col.cards)
                  ++ (if col.id = t then [cid] else []) }),
            cards := b.cards.map (fun c =>
              if c.id = cid then c.move_to t now else c),
            updated_at := now }, true)) := by
  refine ⟨move_card_no_target b cid t now, move_card_no_card b cid t now, ?_⟩
  intro card hinv hnd hfind htgt
  obtain ⟨hW1, hW2, hW3, hW4⟩ := hinv
  have hmem : card ∈ b.cards := List.mem_of_find?_eq_some hfind
  exact move_card_spec b cid t now card hnd hW4 hfind htgt
    (fun col hcol => hW2 card hmem col hcol)

/-- Witness for C2: the two failure branches and the success branch at
concrete boards. -/
theorem C2_move_card_witness :
    ((Board.new "t" "T" 0).columns.any (fun c => c.id == "nope") = false ∧
     (Board.new "t" "T" 0).move_card "X" "nope" 5 = (Board.new "t" "T" 0, false)) ∧
    ((Board.new "t" "T" 0).cards.find? (fun c => c.id == "X") = none ∧
     (Board.new "t" "T" 0).move_card "X" "done" 5 = (Board.new "t" "T" 0, false)) ∧
    ((((Board.new "test" "Test" 0).create_card "Task" none none none 1).2).invariant ∧
     ((((Board.new "test" "Test" 0).create_card "Task" none none none 1).2).cards.find?
        (fun c => c.id == "TES-001")
       = some { id := "TES-001", title := "Task", description := none,
                column_id := "todo", assignee := none,
                created_at := 1, updated_at := 1 }) ∧
     ((((Board.new "test" "Test" 0).create_card "Task" none none none 1).2).move_card
        "TES-001" "done" 7).2 = true) := by
  refine ⟨⟨by decide, (C2_move_card _ "X" "nope" 5).1 (by decide)⟩,
    ⟨by decide, (C2_move_card _ "X" "done" 5).2.1 (by decide)⟩,
    by decide, by decide, ?_⟩
  have h := (C2_move_card (((Board.new "test" "Test" 0).create_card
      "Task" none none none 1).2) "TES-001" "done" 7).2.2
    { id := "TES-001", title := "Task", description := none,
      column_id := "todo", assignee := none, created_at := 1, updated_at := 1 }
    (by decide) (by decide) (by decide) (by decide)
  rw [h]

/-- C9: for a board containing a card `c`, `move_card(c.id, t)` with `t`
equal to `c`'s current `column_id` returns true and moves the ID to the
last position of that same column's sequence — a same-column move succeeds
but discards the card's manual ordering position. -/
theorem C9_same_column_move (b : Board) (card : Card) (now : Nat)
    (hinv : b.invariant) (hndcols : (b.columns.map Column.id).Nodup)
    (hmem : card ∈ b.cards) :
    (b.move_card card.id card.column_id now).2 = true ∧
    (b.move_card card.id card.column_id now).1.columns
      = b.columns.map (fun col =>
          if col.id = card.column_id
          then { col with cards :=
                  col.cards.eraseP (fun x => x == card.id) ++ [card.id] }
          else col) := by
  obtain ⟨hW1, hW2, hW3, hW4⟩ := hinv
  have hfind := find?_key_of_mem_nodup Card.id b.cards hW4 card hmem
  have h1 := hW1 card hmem
  have hne : b.columns.filter (fun col => col.id == card.column_id) ≠ [] := by
    intro h
    rw [h] at h1
    simp at h1
  obtain ⟨col, hcolf⟩ := List.exists_mem_of_ne_nil _ hne
  have hcolp := List.mem_filter.mp hcolf
  have htgt : b.columns.any (fun c => c.id == card.column_id) = true :=
    List.any_eq_true.mpr ⟨col, hcolp.1, hcolp.2⟩
  have hspec := move_card_spec b card.id card.column_id now card hndcols hW4
    hfind htgt (fun c hc => hW2 card hmem c hc)
  constructor
  · exact congrArg Prod.snd hspec
  · have hcols := congrArg (fun p : Board × Bool => p.1.columns) hspec
    simp only at hcols
    rw [hcols]
    refine List.map_congr_left (fun c _ => ?_)
    by_cases h : c.id = card.column_id
    · rw [if_pos h, if_pos h, if_pos h]
    · rw [if_neg h, if_neg h, if_neg h]
      simp

/-- Witness for C9 on a board with two cards in "todo": the moved card
lands last. -/
theorem C9_same_column_move_witness :
    ((((Board.new "test" "Test" 0).create_card "A" none none none 1).2.create_card
        "B" none none none 2).2.invariant ∧
     ({ id := "TES-001", title := "A", description := none, column_id := "todo",
        assignee := none, created_at := 1, updated_at := 1 } : Card)
       ∈ (((Board.new "test" "Test" 0).create_card "A" none none none 1).2.create_card
            "B" none none none 2).2.cards) ∧
    (((((Board.new "test" "Test" 0).create_card "A" none none none 1).2.create_card
        "B" none none none 2).2.move_card "TES-001" "todo" 9).2 = true ∧
     ((((Board.new "test" "Test" 0).create_card "A" none none none 1).2.create_card
        "B" none none none 2).2.move_card "TES-001" "todo" 9).1.columns.map
          Column.cards = [["TES-002", "TES-001"], [], []]) := by
  have h := C9_same_column_move
    ((((Board.new "test" "Test" 0).create_card "A" none none none 1).2.create_card
      "B" none none none 2).2)
    { id := "TES-001", title := "A", description := none, column_id := "todo",
      assignee := none, created_at := 1, updated_at := 1 }
    9 (by decide) (by decide) (by decide)
  refine ⟨⟨by decide, by decide⟩, h.1, ?_⟩
  rw [h.2]
  decide

theorem getD_append_length (xs l : List String) (k : Nat) (d : String) :
    (xs ++ l).getD (xs.length + k) d = l.getD k d := by
  induction xs with
  | nil => simp
  | cons x xs ih =>
    have harith : (x :: xs).length + k = (xs.length + k) + 1 := by
      simp [Nat.succ_add]
    rw [harith, List.cons_append]
    show (xs ++ l).getD (xs.length + k) d = l.getD k d
    exact ih

theorem set_append_length (xs l : List String) (k : Nat) (a : String) :
    (xs ++ l).set (xs.length + k) a = xs ++ l.set k a := by
  induction xs with
  | nil => simp
  | cons x xs ih =>
    have harith : (x :: xs).length + k = (xs.length + k) + 1 := by
      simp [Nat.succ_add]
    rw [harith, List.cons_append]
    show x :: (xs ++ l).set (xs.length + k) a = x :: (xs ++ l.set k a)
    rw [ih]

theorem findIdx?_append_not_mem (cid : String) :
    ∀ (xs l : List String), cid ∉ xs →
      List.findIdx? (fun x => x == cid) (xs ++ l)
        = (List.findIdx? (fun x => x == cid) l).map (fun j => j + xs.length) := by
  intro xs
  induction xs with
  | nil =>
    intro l _
    cases h : List.findIdx? (fun x => x == cid) l <;> simp [h]
  | cons x xs ih =>
    intro l hmem
    have hx : (x == cid) = false :=
      beq_eq_false_iff_ne.mpr (fun h => hmem (h ▸ List.mem_cons_self x xs))
    have hmem2 : cid ∉ xs := fun h => hmem (List.mem_cons_of_mem x h)
    rw [List.cons_append, List.findIdx?_cons, hx]
    simp only [Bool.false_eq_true, if_false]
    rw [findIdx?_go_succ, ih l hmem2]
    cases h : List.findIdx? (fun x => x == cid) l <;>
      simp [h, Nat.add_assoc]

theorem mcu_absent (col : Column) (cid : String) (h : cid ∉ col.cards) :
    col.move_card_up cid = (col, false) := by
  unfold Column.move_card_up
  rw [List.findIdx?_eq_none_iff.mpr (fun x hx =>
    beq_eq_false_iff_ne.mpr (fun heq => h (by rw [← heq]; exact hx)))]

theorem mcd_absent (col : Column) (cid : String) (h : cid ∉ col.cards) :
    col.move_card_down cid = (col, false) := by
  unfold Column.move_card_down
  rw [List.findIdx?_eq_none_iff.mpr (fun x hx =>
    beq_eq_false_iff_ne.mpr (fun heq => h (by rw [← heq]; exact hx)))]

theorem mcu_top (col : Column) (cid : String) (rest : List String)
    (h : col.cards = cid :: rest) :
    col.move_card_up cid = (col, false) := by
  have hfind : col.cards.findIdx? (fun x => x == cid) = some 0 := by
    rw [h, List.findIdx?_cons]
    simp
  unfold Column.move_card_up
  rw [hfind]
  rfl

theorem mcu_swap (col : Column) (cid y : String) (xs ys : List String)
    (h : col.cards = xs ++ y :: cid :: ys) (hxs : cid ∉ xs) (hy : y ≠ cid) :
    col.move_card_up cid = ({ col with cards := xs ++ cid :: y :: ys }, true) := by
  have hfind : col.cards.findIdx? (fun x => x == cid) = some (xs.length + 1) := by
    rw [h, findIdx?_append_not_mem cid xs _ hxs, List.findIdx?_cons,
      beq_eq_false_iff_ne.mpr hy]
    simp only [Bool.false_eq_true, if_false]
    rw [findIdx?_go_succ, List.findIdx?_cons]
    simp [Nat.add_comm]
  unfold Column.move_card_up
  rw [hfind]
  show (if xs.length + 1 = 0 then (col, false)
        else ({ col with
          cards := listSwap col.cards (xs.length + 1) (xs.length + 1 - 1) }, true))
      = ({ col with cards := xs ++ cid :: y :: ys }, true)
  rw [if_neg (Nat.succ_ne_zero xs.length), h]
  show ({ col with
    cards := listSwap (xs ++ y :: cid :: ys) (xs.length + 1) xs.length }, true) = _
  have hswap : listSwap (xs ++ y :: cid :: ys) (xs.length + 1) xs.length
      = xs ++ cid :: y :: ys := by
    unfold listSwap
    have hgj : (xs ++ y :: cid :: ys).getD xs.length "" = y := by
      simpa using getD_append_length xs (y :: cid :: ys) 0 ""
    have hgi : (xs ++ y :: cid :: ys).getD (xs.length + 1) "" = cid := by
      simpa using getD_append_length xs (y :: cid :: ys) 1 ""
    rw [hgj, hgi, set_append_length xs (y :: cid :: ys) 1 y]
    show (xs ++ y :: y :: ys).set (xs.length + 0) cid = xs ++ cid :: y :: ys
    rw [set_append_length xs (y :: y :: ys) 0 cid]
    rfl
  rw [hswap]

theorem mcd_bottom (col : Column) (cid : String) (xs : List String)
    (h : col.cards = xs ++ [cid]) (hxs : cid ∉ xs) :
    col.move_card_down cid = (col, false) := by
  have hfind : col.cards.findIdx? (fun x => x == cid) = some xs.length := by
    rw [h, findIdx?_append_not_mem cid xs _ hxs, List.findIdx?_cons]
    simp
  unfold Column.move_card_down
  rw [hfind]
  show (if xs.length + 1 = col.cards.length then (col, false)
        else ({ col with
          cards := listSwap col.cards xs.length (xs.length + 1) }, true))
      = (col, false)
  rw [if_pos (by rw [h]; simp)]

theorem mcd_swap (col : Column) (cid y : String) (xs ys : List String)
    (h : col.cards = xs ++ cid :: y :: ys) (hxs : cid ∉ xs) :
    col.move_card_down cid = ({ col with cards := xs ++ y :: cid :: ys }, true) := by
  have hfind : col.cards.findIdx? (fun x => x == cid) = some xs.length := by
    rw [h, findIdx?_append_not_mem cid xs _ hxs, List.findIdx?_cons]
    simp
  have hlen : xs.length + 1 ≠ col.cards.length := by
    rw [h]
    simp only [List.length_append, List.length_cons]
    omega
  unfold Column.move_card_down
  rw [hfind]
  show (if xs.length + 1 = col.cards.length then (col, false)
        else ({ col with
          cards := listSwap col.cards xs.length (xs.length + 1) }, true))
      = ({ col with cards := xs ++ y :: cid :: ys }, true)
  rw [if_neg hlen, h]
  have hswap : listSwap (xs ++ cid :: y :: ys) xs.length (xs.length + 1)
      = xs ++ y :: cid :: ys := by
    unfold listSwap
    have hgi : (xs ++ cid :: y :: ys).getD xs.length "" = cid := by
      simpa using getD_append_length xs (cid :: y :: ys) 0 ""
    have hgj : (xs ++ cid :: y :: ys).getD (xs.length + 1) "" = y := by
      simpa using getD_append_length xs (cid :: y :: ys) 1 ""
    rw [hgi, hgj]
    have h1 : (xs ++ cid :: y :: ys).set xs.length y = xs ++ y :: y :: ys := by
      have h0 := set_append_length xs (cid :: y :: ys) 0 y
      rw [Nat.add_zero] at h0
      rw [h0]
      rfl
    rw [h1, set_append_length xs (y :: y :: ys) 1 cid]
    rfl
  rw [hswap]

theorem mcu_frame (col : Column) (cid : String) :
    (col.move_card_up cid).1.id = col.id ∧
    (col.move_card_up cid).1.name = col.name ∧
    (col.move_card_up cid).1.order = col.order := by
  unfold Column.move_card_up
  cases hfind : col.cards.findIdx? (fun x => x == cid) with
  | none => exact ⟨rfl, rfl, rfl⟩
  | some i =>
    by_cases hi : i = 0
    · simp [hi]
    · simp [hi]

theorem mcd_frame (col : Column) (cid : String) :
    (col.move_card_down cid).1.id = col.id ∧
    (col.move_card_down cid).1.name = col.name ∧
    (col.move_card_down cid).1.order = col.order := by
  unfold Column.move_card_down
  cases hfind : col.cards.findIdx? (fun x => x == cid) with
  | none => exact ⟨rfl, rfl, rfl⟩
  | some i =>
    by_cases hi : i + 1 = col.cards.length
    · simp [hi]
    · simp [hi]

/-- C3 (the operations are modelled from the spec, see
`Column.move_card_up`): `move_card_up`/`move_card_down` swap the given card
ID with its previous/next neighbor in the column's ordered sequence and
return true; they return false and leave the sequence unchanged when the
card is at the respective edge or absent; they only rearrange this one
column's `cards` sequence (id, name and order are untouched, and no `Card`
or other `Column` value is involved at all).  In particular on `[A,B,C]`:
`move_card_up B` yields `[B,A,C]`, `move_card_down B` yields `[A,C,B]`, and
`move_card_up A` fails. -/
theorem C3_reorder (col : Column) (cid : String) :
    (cid ∉ col.cards → col.move_card_up cid = (col, false)) ∧
    (cid ∉ col.cards → col.move_card_down cid = (col, false)) ∧
    (∀ rest, col.cards = cid :: rest → col.move_card_up cid = (col, false)) ∧
    (∀ xs, col.cards = xs ++ [cid] → cid ∉ xs →
      col.move_card_down cid = (col, false)) ∧
    (∀ xs y ys, col.cards = xs ++ y :: cid :: ys → cid ∉ xs → y ≠ cid →
      col.move_card_up cid = ({ col with cards := xs ++ cid :: y :: ys }, true)) ∧
    (∀ xs y ys, col.cards = xs ++ cid :: y :: ys → cid ∉ xs →
      col.move_card_down cid = ({ col with cards := xs ++ y :: cid :: ys }, true)) ∧
    ((col.move_card_up cid).1.id = col.id ∧
     (col.move_card_up cid).1.name = col.name ∧
     (col.move_card_up cid).1.order = col.order) ∧
    ((col.move_card_down cid).1.id = col.id ∧
     (col.move_card_down cid).1.name = col.name ∧
     (col.move_card_down cid).1.order = col.order) ∧
    (Column.move_card_up
        { id := "c", name := "C", order := 0, cards := ["A", "B", "C"] } "B"
      = ({ id := "c", name := "C", order := 0, cards := ["B", "A", "C"] }, true)) ∧
    (Column.move_card_down
        { id := "c", name := "C", order := 0, cards := ["A", "B", "C"] } "B"
      = ({ id := "c", name := "C", order := 0, cards := ["A", "C", "B"] }, true)) ∧
    (Column.move_card_up
        { id := "c", name := "C", order := 0, cards := ["A", "B", "C"] } "A"
      = ({ id := "c", name := "C", order := 0, cards := ["A", "B", "C"] }, false)) :=
  ⟨fun h => mcu_absent col cid h,
   fun h => mcd_absent col cid h,
   fun rest h => mcu_top col cid rest h,
   fun xs h hx => mcd_bottom col cid xs h hx,
   fun xs y ys h hx hy => mcu_swap col cid y xs ys h hx hy,
   fun xs y ys h hx => mcd_swap col cid y xs ys h hx,
   mcu_frame col cid, mcd_frame col cid,
   by decide, by decide, by decide⟩

/-- Witness for C3 at concrete columns. -/
theorem C3_reorder_witness :
    (("X" : String) ∉ (["A", "B", "C"] : List String) ∧
     Column.move_card_up
         { id := "c", name := "C", order := 0, cards := ["A", "B", "C"] } "X"
       = ({ id := "c", name := "C", order := 0, cards := ["A", "B", "C"] }, false)) ∧
    ((["A", "B", "C"] : List String) = [] ++ "A" :: "B" :: ["C"] ∧
     Column.move_card_up
         { id := "c", name := "C", order := 0, cards := ["A", "B", "C"] } "B"
       = ({ id := "c", name := "C", order := 0, cards := ["B", "A", "C"] }, true)) ∧
    ((["A", "B", "C"] : List String) = ["A"] ++ "B" :: "C" :: [] ∧
     Column.move_card_down
         { id := "c", name := "C", order := 0, cards := ["A", "B", "C"] } "B"
       = ({ id := "c", name := "C", order := 0, cards := ["A", "C", "B"] }, true)) :=
  ⟨⟨by decide, (C3_reorder _ "X").1 (by decide)⟩,
   ⟨rfl, by
      have h := (C3_reorder
        { id := "c", name := "C", order := 0, cards := ["A", "B", "C"] } "B").2.2.2.2.1
        [] "A" ["C"] rfl (by decide) (by decide)
      exact h⟩,
   ⟨rfl, by
      have h := (C3_reorder
        { id := "c", name := "C", order := 0, cards := ["A", "B", "C"] } "B").2.2.2.2.2.1
        ["A"] "C" [] rfl (by decide)
      exact h⟩⟩

/-- C6: the `card_id_prefix` computed at `Board::new` is the first up-to-3
alphabetic characters of the id, uppercased (all of them when fewer than 3
exist).  The two Unicode primitives the source uses, `char::is_alphabetic`
and `str::to_uppercase`, are quantified over, so the first two conjuncts
hold for every interpretation, in particular the Unicode one; the
hypotheses only require the primitives to agree with their ASCII
restrictions on ASCII inputs, which is true of Unicode (the `Alphabetic`
property meets ASCII in exactly the letters, and uppercasing an ASCII
string is characterwise), and under them the `card_id_prefix` stored by
`Board::new` coincides with the computation on ASCII board ids and the
spec's examples follow: "myproject" ↦ "MYP", "my-project" ↦ "MYP",
"my_project_123" ↦ "MYP", "ab" ↦ "AB". -/
theorem C6_prefix_derivation (is_alphabetic : Char → Bool)
    (to_uppercase : String → String)
    (hA : ∀ c : Char, c.toNat < 128 → is_alphabetic c = c.isAlpha)
    (hU : ∀ s : String, (∀ c ∈ s.data, c.toNat < 128) →
      to_uppercase s = asciiUpper s) :
    (∀ id : String,
      generate_prefix_u is_alphabetic to_uppercase id
        = to_uppercase (String.mk ((id.data.filter is_alphabetic).take 3))) ∧
    (∀ id : String, (id.data.filter is_alphabetic).length ≤ 3 →
      generate_prefix_u is_alphabetic to_uppercase id
        = to_uppercase (String.mk (id.data.filter is_alphabetic))) ∧
    (∀ (id name : String) (now : Nat), (∀ c ∈ id.data, c.toNat < 128) →
      Board.card_id_prefix (Board.new id name now)
        = generate_prefix_u is_alphabetic to_uppercase id) ∧
    generate_prefix_u is_alphabetic to_uppercase "myproject" = "MYP" ∧
    generate_prefix_u is_alphabetic to_uppercase "my-project" = "MYP" ∧
    generate_prefix_u is_alphabetic to_uppercase "my_project_123" = "MYP" ∧
    generate_prefix_u is_alphabetic to_uppercase "ab" = "AB" := by
  have hbridge : ∀ id : String, (∀ c ∈ id.data, c.toNat < 128) →
      generate_prefix_u is_alphabetic to_uppercase id
        = Board.generate_prefix id := by
    intro id hascii
    have hfilter : id.data.filter is_alphabetic
        = id.data.filter (fun c => c.isAlpha) :=
      List.filter_congr (fun c hc => hA c (hascii c hc))
    have hsub : ∀ c ∈ (String.mk
        ((id.data.filter (fun c => c.isAlpha)).take 3)).data, c.toNat < 128 := by
      intro c hc
      exact hascii c (List.mem_of_mem_filter (List.mem_of_mem_take hc))
    show to_uppercase (String.mk ((id.data.filter is_alphabetic).take 3)) = _
    rw [hfilter, hU _ hsub]
    rfl
  refine ⟨fun id => rfl, ?_, ?_, ?_, ?_, ?_, ?_⟩
  · intro id hlen
    show to_uppercase (String.mk ((id.data.filter is_alphabetic).take 3)) = _
    rw [List.take_of_length_le hlen]
  · intro id name now hascii
    exact (hbridge id hascii).symm
  · exact (hbridge "myproject" (by decide)).trans (by decide)
  · exact (hbridge "my-project" (by decide)).trans (by decide)
  · exact (hbridge "my_project_123" (by decide)).trans (by decide)
  · exact (hbridge "ab" (by decide)).trans (by decide)

/-- Witness for C6 at the ASCII instantiation of the Unicode primitives
(for which both agreement hypotheses hold definitionally). -/
theorem C6_prefix_derivation_witness :
    generate_prefix_u (fun c => c.isAlpha) asciiUpper "myproject" = "MYP" ∧
    generate_prefix_u (fun c => c.isAlpha) asciiUpper "ab" = "AB" ∧
    Board.card_id_prefix (Board.new "myproject" "B" 0)
      = generate_prefix_u (fun c => c.isAlpha) asciiUpper "myproject" :=
  ⟨(C6_prefix_derivation (fun c => c.isAlpha) asciiUpper
      (fun _ _ => rfl) (fun _ _ => rfl)).2.2.2.1,
   (C6_prefix_derivation (fun c => c.isAlpha) asciiUpper
      (fun _ _ => rfl) (fun _ _ => rfl)).2.2.2.2.2.2,
   (C6_prefix_derivation (fun c => c.isAlpha) asciiUpper
      (fun _ _ => rfl) (fun _ _ => rfl)).2.2.1 "myproject" "B" 0 (by decide)⟩

/-- Number of `create` operations in a sequence. -/
def countCreates : List (BoardOp × Nat) → Nat
  | [] => 0
  | (BoardOp.create _ _ _ _, _) :: rest => countCreates rest + 1
  | _ :: rest => countCreates rest

/-- Whether an operation is a create or a delete. -/
def isCreateOrDelete : BoardOp → Bool
  | BoardOp.create _ _ _ _ => true
  | BoardOp.delete _ => true
  | BoardOp.move _ _ => false

theorem move_card_next (b : Board) (cid t : String) (now : Nat) :
    ((b.move_card cid t now).1).next_card_number = b.next_card_number := by
  unfold Board.move_card
  split
  · rfl
  · split <;> rfl

theorem delete_card_next (b : Board) (cid : String) (now : Nat) :
    ((b.delete_card cid now).1).next_card_number = b.next_card_number := by
  unfold Board.delete_card
  split <;> rfl

theorem foldl_move_next (fid : String) (now : Nat) :
    ∀ (L : List String) (b : Board),
      (L.foldl (fun acc card_id => (acc.move_card card_id fid now).1)
        b).next_card_number = b.next_card_number
  | [], _ => rfl
  | cid :: L, b => by
    rw [List.foldl_cons, foldl_move_next fid now L, move_card_next]

theorem remove_column_next (b : Board) (cid : String) (now : Nat) :
    ((b.remove_column cid now).1).next_card_number = b.next_card_number := by
  unfold Board.remove_column
  split
  · rfl
  · split
    · rfl
    · split
      · rfl
      · exact foldl_move_next _ now _ b

theorem runOps_next_creates (ops : List (BoardOp × Nat)) :
    ∀ (b : Board), (∀ p ∈ ops, isCreateOrDelete p.1 = true) →
      (b.runOps ops).next_card_number = b.next_card_number + countCreates ops := by
  induction ops with
  | nil => intro b _; rfl
  | cons p rest ih =>
    intro b h
    obtain ⟨op, now⟩ := p
    have hop := h (op, now) (List.mem_cons_self _ _)
    have hrest := fun q hq => h q (List.mem_cons_of_mem _ hq)
    cases op with
    | create t d a c =>
      show ((b.applyOp (BoardOp.create t d a c) now).runOps rest).next_card_number
        = b.next_card_number + countCreates ((BoardOp.create t d a c, now) :: rest)
      rw [ih _ hrest]
      show (b.next_card_number + 1) + countCreates rest
        = b.next_card_number + (countCreates rest + 1)
      omega
    | move cid t => simp [isCreateOrDelete] at hop
    | delete cid =>
      show ((b.applyOp (BoardOp.delete cid) now).runOps rest).next_card_number
        = b.next_card_number + countCreates ((BoardOp.delete cid, now) :: rest)
      rw [ih _ hrest]
      show ((b.delete_card cid now).1).next_card_number + countCreates rest
        = b.next_card_number + countCreates rest
      rw [delete_card_next]

/-- C5: `next_card_number` starts at 1 on a fresh board; after N creates it
equals N+1 regardless of interleaved deletes; it never decreases under any
public Board operation; and each generated card ID is
`{prefix}-{number:03}` using the number before the increment. -/
theorem C5_id_counter (id name : String) (now : Nat) :
    (Board.new id name now).next_card_number = 1 ∧
    (∀ ops : List (BoardOp × Nat), (∀ p ∈ ops, isCreateOrDelete p.1 = true) →
      ((Board.new id name now).runOps ops).next_card_number
        = countCreates ops + 1) ∧
    (∀ (b : Board) (now₁ : Nat),
      b.next_card_number ≤ ((b.generate_card_id now₁).2).next_card_number) ∧
    (∀ (b : Board) (title : String) (d a c : Option String) (now₁ : Nat),
      b.next_card_number ≤ ((b.create_card title d a c now₁).2).next_card_number) ∧
    (∀ (b : Board) (cid t : String) (now₁ : Nat),
      b.next_card_number ≤ ((b.move_card cid t now₁).1).next_card_number) ∧
    (∀ (b : Board) (cid : String) (now₁ : Nat),
      b.next_card_number ≤ ((b.delete_card cid now₁).1).next_card_number) ∧
    (∀ (b : Board) (cid cname : String) (ord now₁ : Nat),
      b.next_card_number ≤ (b.add_column cid cname ord now₁).next_card_number) ∧
    (∀ (b : Board) (cid : String) (now₁ : Nat),
      b.next_card_number ≤ ((b.remove_column cid now₁).1).next_card_number) ∧
    (∀ (b : Board) (now₁ : Nat), (b.generate_card_id now₁).1
      = b.card_id_prefix ++ "-" ++ formatNum3 b.next_card_number) := by
  refine ⟨rfl, ?_, ?_, ?_, ?_, ?_, ?_, ?_, ?_⟩
  · intro ops h
    rw [runOps_next_creates ops _ h]
    show 1 + countCreates ops = countCreates ops + 1
    omega
  · intro b now₁
    exact Nat.le_succ _
  · intro b title d a c now₁
    exact Nat.le_succ _
  · intro b cid t now₁
    rw [move_card_next]
  · intro b cid now₁
    rw [delete_card_next]
  · intro b cid cname ord now₁
    exact Nat.le_refl _
  · intro b cid now₁
    rw [remove_column_next]
  · intro b now₁
    rfl

/-- Witness for C5: three creates with an interleaved delete leave the
counter at 4. -/
theorem C5_id_counter_witness :
    (∀ p ∈ [(BoardOp.create "A" none none none, 1),
            (BoardOp.delete "TES-001", 2),
            (BoardOp.create "B" none none none, 3),
            (BoardOp.create "C" none none none, 4)],
      isCreateOrDelete p.1 = true) ∧
    ((Board.new "test" "Test" 0).runOps
      [(BoardOp.create "A" none none none, 1),
       (BoardOp.delete "TES-001", 2),
       (BoardOp.create "B" none none none, 3),
       (BoardOp.create "C" none none none, 4)]).next_card_number
      = countCreates [(BoardOp.create "A" none none none, 1),
            (BoardOp.delete "TES-001", 2),
            (BoardOp.create "B" none none none, 3),
            (BoardOp.create "C" none none none, 4)] + 1 :=
  ⟨by decide, (C5_id_counter "test" "Test" 0).2.1 _ (by decide)⟩

/-- C4: `Board::create_card` does not validate the target column — with a
column_id matching no column the card is still appended to `Board.cards`
(with that column_id), no column gains the ID, and the generated ID is
returned; at the service layer `CardService::create` returns ColumnNotFound
before mutating or saving anything. -/
theorem C4_create_no_validation (b : Board) (title : String) (d a : Option String)
    (colid : String) (now : Nat)
    (hmissing : ∀ col ∈ b.columns, col.id ≠ colid) :
    (b.create_card title d a (some colid) now).1
      = mkCardId b.card_id_prefix b.next_card_number ∧
    ((b.create_card title d a (some colid) now).2).cards
      = b.cards ++ [{ Card.new (mkCardId b.card_id_prefix b.next_card_number)
          title colid now with description := d, assignee := a }] ∧
    ((b.create_card title d a (some colid) now).2).columns = b.columns ∧
    CardService.create title d a (some colid) now { board := b }
      = ({ board := b }, Except.error (CardServiceError.ColumnNotFound colid)) := by
  have hany : b.columns.any (fun c => c.id == colid) = false := by
    cases hc : b.columns.any (fun c => c.id == colid)
    · rfl
    · obtain ⟨col, hcol, hbeq⟩ := List.any_eq_true.mp hc
      exact absurd (eq_of_beq hbeq) (hmissing col hcol)
  refine ⟨rfl, rfl, ?_, ?_⟩
  · rw [create_card_eq]
    show updateFirst (fun col => col.id == colid)
        (fun col => col.add_card (mkCardId b.card_id_prefix b.next_card_number))
        b.columns = b.columns
    exact updateFirst_of_forall_not (fun col hcol =>
      beq_eq_false_iff_ne.mpr (hmissing col hcol))
  · unfold CardService.create
    split
    · rename_i col_id heq
      injection heq with heq2
      subst heq2
      show (if (b.columns.any fun c => c.id == colid) = true then
          (saveBoard { board := b } (b.create_card title d a (some colid) now).2,
            (Except.ok { card_id := (b.create_card title d a (some colid) now).1,
                         board := (b.create_card title d a (some colid) now).2 }
              : Except CardServiceError CreatedCardInfo))
        else ({ board := b }, Except.error (CardServiceError.ColumnNotFound colid)))
        = ({ board := b }, Except.error (CardServiceError.ColumnNotFound colid))
      rw [if_neg (by rw [hany]; exact Bool.false_ne_true)]
    · rename_i heq
      exact absurd heq (by simp)

/-- Witness for C4 at a fresh board and the unknown column "nope". -/
theorem C4_create_no_validation_witness :
    (∀ col ∈ (Board.new "test" "Test" 0).columns, col.id ≠ "nope") ∧
    ((Board.new "test" "Test" 0).create_card "Task" none none (some "nope") 1).1
      = mkCardId (Board.card_id_prefix (Board.new "test" "Test" 0)) 1 ∧
    (((Board.new "test" "Test" 0).create_card "Task" none none
        (some "nope") 1).2).columns = (Board.new "test" "Test" 0).columns ∧
    CardService.create "Task" none none (some "nope") 1
        { board := Board.new "test" "Test" 0 }
      = ({ board := Board.new "test" "Test" 0 },
         Except.error (CardServiceError.ColumnNotFound "nope")) := by
  have h := C4_create_no_validation (Board.new "test" "Test" 0) "Task" none none
    "nope" 1 (by decide)
  exact ⟨by decide, h.1, h.2.2.1, h.2.2.2⟩

/-- `CardService::create` with an existing explicit target column saves the
created board. -/
theorem card_service_create_ok (title : String) (d a : Option String)
    (colid : String) (now : Nat) (store : Store)
    (h : (loadBoard store).columns.any (fun c => c.id == colid) = true) :
    CardService.create title d a (some colid) now store
      = (saveBoard store
          ((loadBoard store).create_card title d a (some colid) now).2,
         Except.ok
           { card_id := ((loadBoard store).create_card title d a (some colid) now).1,
             board := ((loadBoard store).create_card title d a (some colid) now).2 }) := by
  unfold CardService.create
  show (if ((loadBoard store).columns.any fun c => c.id == colid) = true then
      (saveBoard store ((loadBoard store).create_card title d a (some colid) now).2,
        (Except.ok
          { card_id := ((loadBoard store).create_card title d a (some colid) now).1,
            board := ((loadBoard store).create_card title d a (some colid) now).2 }
          : Except CardServiceError CreatedCardInfo))
    else (store, Except.error (CardServiceError.ColumnNotFound colid)))
    = _
  rw [if_pos h]

/-- C7: submitting the TUI card form with an empty post-trim title only
sets an error message — view state, form values and the stored board (and
hence `next_card_number`) are untouched and no card is created; with a
non-empty trimmed title (and the current column present in the stored
board) the card is created and saved, the board reloaded, the form
cleared, and the view returns to the board. -/
theorem C7_submit_card (app : App) (now : Nat) :
    ((strTrim app.form_data.title).data.isEmpty = true →
      app.submit_card now
        = ({ app with error_message := some "Title is required" }, Except.ok ())) ∧
    ((strTrim app.form_data.title).data.isEmpty = false →
      ∀ colid : String, (app.get_current_column).getD "todo" = colid →
      (loadBoard app.store).columns.any (fun c => c.id == colid) = true →
      app.submit_card now
        = ({ app with
              store := saveBoard app.store
                ((loadBoard app.store).create_card (strTrim app.form_data.title)
                  (if (strTrim app.form_data.description).data.isEmpty then none
                   else some app.form_data.description)
                  (if (strTrim app.form_data.assignee).data.isEmpty then none
                   else some app.form_data.assignee)
                  (some colid) now).2,
              board := some
                ((loadBoard app.store).create_card (strTrim app.form_data.title)
                  (if (strTrim app.form_data.description).data.isEmpty then none
                   else some app.form_data.description)
                  (if (strTrim app.form_data.assignee).data.isEmpty then none
                   else some app.form_data.assignee)
                  (some colid) now).2,
              error_message := none,
              form_data := CardFormData.default,
              form_field := FormField.Title,
              input_mode := InputMode.Normal,
              editing_card_id := none,
              state := AppState.Board }, Except.ok ())) := by
  constructor
  · intro hempty
    unfold App.submit_card
    rw [if_pos hempty]
  · intro hempty colid hcolid hany
    unfold App.submit_card
    rw [if_neg (by rw [hempty]; exact Bool.false_ne_true), hcolid,
      card_service_create_ok _ _ _ _ _ _ hany]
    rfl

/-- A concrete app in the card form whose title is all Unicode whitespace
(space, form feed U+000C, no-break space U+00A0): Rust `str::trim` reduces
it to the empty string, so submitting must take the error branch. -/
def appEmptyTitle : App :=
  { state := AppState.CreateCard, focus := Focus.Columns,
    input_mode := InputMode.Editing,
    store := { board := Board.new "test" "Test" 0 },
    board := some (Board.new "test" "Test" 0),
    selected_column := 0, selected_card := none, selected_target_column := 0,
    input := "", cursor_position := 0, error_message := none, show_help := false,
    form_field := FormField.Description,
    form_data := { title := " \x0C  ", description := "d", assignee := "",
                   current_field := FormField.Title,
                   input_mode := InputMode.Normal },
    editing_card_id := none }

/-- The same app with a usable title. -/
def appGoodTitle : App :=
  { appEmptyTitle with
    form_data := { title := " Hello ", description := "", assignee := "",
                   current_field := FormField.Title,
                   input_mode := InputMode.Normal } }

/-- Witness for C7: both branches at concrete apps. -/
theorem C7_submit_card_witness :
    ((strTrim appEmptyTitle.form_data.title).data.isEmpty = true ∧
     appEmptyTitle.submit_card 9
       = ({ appEmptyTitle with error_message := some "Title is required" },
          Except.ok ()) ∧
     (appEmptyTitle.submit_card 9).1.state = appEmptyTitle.state ∧
     (appEmptyTitle.submit_card 9).1.form_data = appEmptyTitle.form_data ∧
     (loadBoard (appEmptyTitle.submit_card 9).1.store).next_card_number
       = (loadBoard appEmptyTitle.store).next_card_number) ∧
    ((strTrim appGoodTitle.form_data.title).data.isEmpty = false ∧
     (appGoodTitle.get_current_column).getD "todo" = "todo" ∧
     (loadBoard appGoodTitle.store).columns.any (fun c => c.id == "todo") = true ∧
     (appGoodTitle.submit_card 9).1.state = AppState.Board ∧
     (appGoodTitle.submit_card 9).1.form_data = CardFormData.default ∧
     (loadBoard (appGoodTitle.submit_card 9).1.store).cards.map Card.title
       = ["Hello"]) := by
  have hE := (C7_submit_card appEmptyTitle 9).1 (by decide)
  have hN := (C7_submit_card appGoodTitle 9).2 (by decide) "todo"
    (by decide) (by decide)
  refine ⟨⟨by decide, hE, ?_, ?_, ?_⟩, by decide, by decide, by decide, ?_, ?_, ?_⟩
  · rw [hE]
  · rw [hE]
  · rw [hE]
  · rw [hN]
  · rw [hN]
  · rw [hN]
    decide

/-- C10: `CardService::move_to`, `update` and `delete` are atomic on error:
whenever they return an error, the error was raised before any save, so
the persisted store is exactly the one that was loaded. -/
theorem C10_service_atomic (store : Store) (now : Nat) :
    (∀ (cid colid : String) (e : CardServiceError),
      (CardService.move_to cid colid now store).2 = Except.error e →
      (CardService.move_to cid colid now store).1 = store) ∧
    (∀ (cid : String) (title : Option String)
        (d a : Option (Option String)) (e : CardServiceError),
      (CardService.update cid title d a now store).2 = Except.error e →
      (CardService.update cid title d a now store).1 = store) ∧
    (∀ (cid : String) (e : CardServiceError),
      (CardService.delete cid now store).2 = Except.error e →
      (CardService.delete cid now store).1 = store) := by
  refine ⟨?_, ?_, ?_⟩
  · intro cid colid e herr
    unfold CardService.move_to at herr ⊢
    split
    · rfl
    · split
      · rfl
      · split
        · rfl
        · rename_i h1 h2 h3
          rw [if_neg h1, if_neg h2, if_neg h3] at herr
          simp at herr
  · intro cid title d a e herr
    unfold CardService.update at herr ⊢
    split
    · rfl
    · rename_i h1
      rw [if_neg h1] at herr
      simp at herr
  · intro cid e herr
    unfold CardService.delete at herr ⊢
    split
    · rfl
    · rename_i h1
      rw [if_neg h1] at herr
      simp at herr

/-- Witness for C10: each operation erroring on an empty fresh board leaves
the store untouched. -/
theorem C10_service_atomic_witness :
    ((CardService.move_to "X" "done" 3 { board := Board.new "t" "T" 0 }).2
        = Except.error (CardServiceError.CardNotFound "X") ∧
     (CardService.move_to "X" "done" 3 { board := Board.new "t" "T" 0 }).1
        = { board := Board.new "t" "T" 0 }) ∧
    ((CardService.update "X" (some "N") none none 3
        { board := Board.new "t" "T" 0 }).2
        = Except.error (CardServiceError.CardNotFound "X") ∧
     (CardService.update "X" (some "N") none none 3
        { board := Board.new "t" "T" 0 }).1
        = { board := Board.new "t" "T" 0 }) ∧
    ((CardService.delete "X" 3 { board := Board.new "t" "T" 0 }).2
        = Except.error (CardServiceError.CardNotFound "X") ∧
     (CardService.delete "X" 3 { board := Board.new "t" "T" 0 }).1
        = { board := Board.new "t" "T" 0 }) :=
  ⟨⟨rfl,
    (C10_service_atomic { board := Board.new "t" "T" 0 } 3).1 "X" "done"
      (CardServiceError.CardNotFound "X") (rfl)⟩,
   ⟨rfl,
    (C10_service_atomic { board := Board.new "t" "T" 0 } 3).2.1 "X" (some "N")
      none none (CardServiceError.CardNotFound "X") (rfl)⟩,
   ⟨rfl,
    (C10_service_atomic { board := Board.new "t" "T" 0 } 3).2.2 "X"
      (CardServiceError.CardNotFound "X") (rfl)⟩⟩

theorem eraseP_congr_mem {α} : ∀ (l : List α) (p q : α → Bool),
    (∀ x ∈ l, p x = q x) → l.eraseP p = l.eraseP q
  | [], _, _, _ => rfl
  | x :: xs, p, q, h => by
    have hx := h x (List.mem_cons_self x xs)
    by_cases hpx : p x = true
    · rw [List.eraseP_cons_of_pos hpx, List.eraseP_cons_of_pos (hx ▸ hpx)]
    · have hqx : ¬ q x = true := by rw [← hx]; exact hpx
      rw [List.eraseP_cons_of_neg (by simpa using hpx),
        List.eraseP_cons_of_neg (by simpa using hqx)]
      exact congrArg _ (eraseP_congr_mem xs p q
        (fun y hy => h y (List.mem_cons_of_mem x hy)))

/-- With distinct column IDs, the columns surviving the erase of `cid` all
have a different ID. -/
theorem mem_eraseP_col_ne (l : List Column) (cid : String)
    (hnd : (l.map Column.id).Nodup) :
    ∀ col ∈ l.eraseP (fun c => c.id == cid), col.id ≠ cid := by
  intro col hcol hid
  have hmem : col ∈ l := List.Sublist.mem hcol (List.eraseP_sublist l)
  obtain ⟨c₀, l₁, l₂, hl₁, hp₀, hdecomp, herase⟩ :=
    List.exists_of_eraseP (p := fun c => c.id == cid) hmem (by simp [hid])
  have hc₀ : c₀.id = cid := eq_of_beq hp₀
  have hc₀mem : c₀ ∈ l := hdecomp ▸
    List.mem_append_right l₁ (List.mem_cons_self c₀ l₂)
  have hcoleq : col = c₀ :=
    List.inj_on_of_nodup_map hnd hmem hc₀mem (hid.trans hc₀.symm)
  rw [herase, hcoleq] at hcol
  have hnodup : ((l₁ ++ c₀ :: l₂).map Column.id).Nodup := hdecomp ▸ hnd
  rw [List.map_append, List.map_cons] at hnodup
  have hnotmem := (List.nodup_append.mp hnodup).2.2
  rcases List.mem_append.mp hcol with h1 | h2
  · exact hnotmem (List.mem_map_of_mem Column.id h1) (List.mem_cons_self _ _)
  · exact (List.nodup_cons.mp (List.nodup_append.mp hnodup).2.1).1
      (List.mem_map_of_mem Column.id h2)

/-- Folding `move_card` over the full card list of the column with ID `s`
empties that column, appends the list (in order) to the column with ID `t`,
and relabels the moved cards. -/
theorem foldl_moves_spec (t : String) (now : Nat) :
    ∀ (L : List String) (b : Board) (s : String),
      b.inductiveInv → s ≠ t →
      (∃ colS ∈ b.columns, colS.id = s ∧ colS.cards = L) →
      b.columns.any (fun c => c.id == t) = true →
      L.foldl (fun acc card_id => (acc.move_card card_id t now).1) b
        = { b with
            columns := b.columns.map (fun col =>
              if col.id = s then { col with cards := [] }
              else if col.id = t then { col with cards := col.cards ++ L }
              else col),
            cards := b.cards.map (fun c =>
              if c.column_id = s then c.move_to t now else c),
            updated_at := if L.isEmpty then b.updated_at else now }
  | [], b, s => by
    intro hinv hst hcolS hany
    obtain ⟨colS, hcolSmem, hcolSid, hcolScards⟩ := hcolS
    have hndcols := hinv.2.1
    have hW2 := hinv.1.2.1
    have hcols : b.columns.map (fun col =>
        if col.id = s then { col with cards := ([] : List String) }
        else if col.id = t then { col with cards := col.cards ++ [] }
        else col) = b.columns := by
      conv_rhs => rw [← List.map_id b.columns]
      refine List.map_congr_left (fun col hcol => ?_)
      by_cases hs : col.id = s
      · rw [if_pos hs]
        have hcoleq : col = colS := List.inj_on_of_nodup_map hndcols hcol
          hcolSmem (by rw [hs, hcolSid])
        have hnil : col.cards = [] := by rw [hcoleq, hcolScards]
        rw [← hnil]
        rfl
      · rw [if_neg hs]
        by_cases ht : col.id = t
        · rw [if_pos ht, List.append_nil]
          rfl
        · rw [if_neg ht]
          rfl
    have hcards : b.cards.map (fun c =>
        if c.column_id = s then c.move_to t now else c) = b.cards := by
      conv_rhs => rw [← List.map_id b.cards]
      refine List.map_congr_left (fun c hc => ?_)
      by_cases hcs : c.column_id = s
      · exfalso
        have hcount := hW2 c hc colS hcolSmem
        rw [hcolScards, if_pos (by rw [hcolSid, hcs])] at hcount
        simp at hcount
      · rw [if_neg hcs]
        rfl
    show b = _
    rw [hcols, hcards]
    rfl
  | cid₀ :: rest, b, s => by
    intro hinv hst hcolS hany
    obtain ⟨colS, hcolSmem, hcolSid, hcolScards⟩ := hcolS
    have hndcols := hinv.2.1
    have hW2 := hinv.1.2.1
    have hW3 := hinv.1.2.2.1
    have hW4 := hinv.1.2.2.2
    have hcid₀mem : cid₀ ∈ colS.cards := by
      rw [hcolScards]
      exact List.mem_cons_self _ _
    obtain ⟨card, hcardmem, hcardid⟩ := hW3 colS hcolSmem cid₀ hcid₀mem
    have hfind : b.cards.find? (fun c => c.id == cid₀) = some card := by
      have h := find?_key_of_mem_nodup Card.id b.cards hW4 card hcardmem
      rw [hcardid] at h
      exact h
    have hcardcol : card.column_id = s := by
      have hcount := hW2 card hcardmem colS hcolSmem
      rw [hcardid, hcolScards] at hcount
      by_cases h : colS.id = card.column_id
      · exact h.symm.trans hcolSid
      · rw [if_neg h, List.count_cons_self] at hcount
        omega
    have hspec := move_card_spec b cid₀ t now card hndcols hW4 hfind hany
      (fun col hcol => hW2 card hcardmem col hcol)
    have hb' : (b.move_card cid₀ t now).1
        = { b with
            columns := b.columns.map (fun col =>
              { col with cards :=
                  (if col.id = card.column_id
                   then col.cards.eraseP (fun x => x == cid₀) else col.cards)
                  ++ (if col.id = t then [cid₀] else []) }),
            cards := b.cards.map (fun c =>
              if c.id = cid₀ then c.move_to t now else c),
            updated_at := now } := by rw [hspec]
    have hinvB := inv_move b cid₀ t now hinv
    have hcolSB : ∃ colS₁ ∈ ((b.move_card cid₀ t now).1).columns,
        colS₁.id = s ∧ colS₁.cards = rest := by
      rw [hb']
      refine ⟨{ colS with cards :=
          (if colS.id = card.column_id
           then colS.cards.eraseP (fun x => x == cid₀) else colS.cards)
          ++ (if colS.id = t then [cid₀] else []) },
        List.mem_map_of_mem _ hcolSmem, hcolSid, ?_⟩
      show (if colS.id = card.column_id
            then colS.cards.eraseP (fun x => x == cid₀) else colS.cards)
          ++ (if colS.id = t then [cid₀] else []) = rest
      rw [if_pos (by rw [hcolSid, hcardcol]),
        if_neg (by rw [hcolSid]; exact hst), List.append_nil, hcolScards,
        List.eraseP_cons_of_pos (by simp)]
    have hanyB : ((b.move_card cid₀ t now).1).columns.any
        (fun c => c.id == t) = true := by
      rw [hb']
      obtain ⟨colT, hcolTmem, hcolT⟩ := List.any_eq_true.mp hany
      exact List.any_eq_true.mpr ⟨_, List.mem_map_of_mem _ hcolTmem, hcolT⟩
    show List.foldl (fun acc card_id => (acc.move_card card_id t now).1)
        ((b.move_card cid₀ t now).1) rest = _
    rw [foldl_moves_spec t now rest ((b.move_card cid₀ t now).1) s hinvB hst
      hcolSB hanyB, hb']
    have hcolsfinal : (b.columns.map (fun col =>
        { col with cards :=
            (if col.id = card.column_id
             then col.cards.eraseP (fun x => x == cid₀) else col.cards)
            ++ (if col.id = t then [cid₀] else []) })).map (fun col =>
          if col.id = s then { col with cards := ([] : List String) }
          else if col.id = t then { col with cards := col.cards ++ rest }
          else col)
        = b.columns.map (fun col =>
            if col.id = s then { col with cards := [] }
            else if col.id = t then { col with cards := col.cards ++ cid₀ :: rest }
            else col) := by
      rw [List.map_map]
      refine List.map_congr_left (fun col hcol => ?_)
      show (if col.id = s
            then { col with cards := ([] : List String) }
            else if col.id = t
            then { col with cards :=
                ((if col.id = card.column_id
                  then col.cards.eraseP (fun x => x == cid₀) else col.cards)
                 ++ (if col.id = t then [cid₀] else [])) ++ rest }
            else { col with cards :=
                (if col.id = card.column_id
                 then col.cards.eraseP (fun x => x == cid₀) else col.cards)
                ++ (if col.id = t then [cid₀] else []) })
          = if col.id = s then { col with cards := [] }
            else if col.id = t then { col with cards := col.cards ++ cid₀ :: rest }
            else col
      by_cases hs : col.id = s
      · rw [if_pos hs, if_pos hs]
      · rw [if_neg hs, if_neg hs]
        by_cases ht : col.id = t
        · rw [if_pos ht, if_pos ht, if_pos ht,
            if_neg (by rw [hcardcol]; exact hs),
            List.append_assoc]
          rfl
        · rw [if_neg ht, if_neg ht, if_neg ht,
            if_neg (by rw [hcardcol]; exact hs), List.append_nil]
    have hcardsfinal : (b.cards.map (fun c =>
        if c.id = cid₀ then c.move_to t now else c)).map (fun c =>
          if c.column_id = s then c.move_to t now else c)
        = b.cards.map (fun c =>
            if c.column_id = s then c.move_to t now else c) := by
      rw [List.map_map]
      refine List.map_congr_left (fun c hc => ?_)
      show (if (if c.id = cid₀ then c.move_to t now else c).column_id = s
            then (if c.id = cid₀ then c.move_to t now else c).move_to t now
            else (if c.id = cid₀ then c.move_to t now else c))
          = if c.column_id = s then c.move_to t now else c
      by_cases hcc : c.id = cid₀
      · have hceq : c = card :=
          List.inj_on_of_nodup_map hW4 hc hcardmem (hcc.trans hcardid.symm)
        rw [if_pos hcc]
        have hmovecol : (c.move_to t now).column_id = t := rfl
        rw [hmovecol, if_neg (fun h => hst h.symm),
          if_pos (by rw [hceq, hcardcol])]
      · rw [if_neg hcc]
    show ({ b with
        columns := (b.columns.map (fun col =>
          { col with cards :=
              (if col.id = card.column_id
               then col.cards.eraseP (fun x => x == cid₀) else col.cards)
              ++ (if col.id = t then [cid₀] else []) })).map (fun col =>
            if col.id = s then { col with cards := ([] : List String) }
            else if col.id = t then { col with cards := col.cards ++ rest }
            else col),
        cards := (b.cards.map (fun c =>
          if c.id = cid₀ then c.move_to t now else c)).map (fun c =>
            if c.column_id = s then c.move_to t now else c),
        updated_at := if rest.isEmpty then now else now } : Board) = _
    rw [hcolsfinal, hcardsfinal, ite_self]
    rfl

/-- C8: `Board::remove_column` returns false and mutates nothing on the
last column or an unknown id; otherwise it moves every card listed in the
doomed column (in order) to the first other column in the current sequence
order, removes the column, and returns true.  In particular on a board
with columns [todo, in_progress, done] and 2 cards in in_progress,
removing "in_progress" leaves exactly [todo, done] with both cards in
todo. -/
theorem C8_remove_column (b : Board) (cid : String) (now : Nat) :
    (b.columns.length ≤ 1 → b.remove_column cid now = (b, false)) ∧
    (b.columns.find? (fun c => c.id == cid) = none →
      b.remove_column cid now = (b, false)) ∧
    (∀ doomed fstcol : Column, b.inductiveInv →
      1 < b.columns.length →
      b.columns.find? (fun c => c.id == cid) = some doomed →
      b.columns.find? (fun c => c.id != cid) = some fstcol →
      b.remove_column cid now =
        ({ b with
            columns := (b.columns.eraseP (fun c => c.id == cid)).map (fun col =>
              if col.id = fstcol.id
              then { col with cards := col.cards ++ doomed.cards }
              else col),
            cards := b.cards.map (fun c =>
              if c.column_id = cid then c.move_to fstcol.id now else c),
            updated_at := now }, true)) ∧
    (((((Board.new "test" "Test" 0).create_card "A" none none
          (some "in_progress") 1).2.create_card "B" none none
          (some "in_progress") 2).2.remove_column "in_progress" 3).2 = true ∧
     ((((Board.new "test" "Test" 0).create_card "A" none none
          (some "in_progress") 1).2.create_card "B" none none
          (some "in_progress") 2).2.remove_column "in_progress" 3).1.columns.map
        (fun c => (c.id, c.cards))
       = [("todo", ["TES-001", "TES-002"]), ("done", [])] ∧
     ((((Board.new "test" "Test" 0).create_card "A" none none
          (some "in_progress") 1).2.create_card "B" none none
          (some "in_progress") 2).2.remove_column "in_progress" 3).1.cards.map
        Card.column_id = ["todo", "todo"]) := by
  refine ⟨?_, ?_, ?_, by decide, by decide, by decide⟩
  · intro hlen
    unfold Board.remove_column
    rw [if_pos hlen]
  · intro hfind
    unfold Board.remove_column
    by_cases hlen : b.columns.length ≤ 1
    · rw [if_pos hlen]
    · rw [if_neg hlen, hfind]
  · intro doomed fstcol hinv hlen hdoomed hfirst
    have hdoomedid : doomed.id = cid := by
      have h := List.find?_some hdoomed
      exact eq_of_beq h
    have hdoomedmem : doomed ∈ b.columns := List.mem_of_find?_eq_some hdoomed
    have hfirstmem : fstcol ∈ b.columns := List.mem_of_find?_eq_some hfirst
    have hfirstne : fstcol.id ≠ cid := by
      have h := List.find?_some hfirst
      simpa using h
    have hanyT : b.columns.any (fun c => c.id == fstcol.id) = true :=
      List.any_eq_true.mpr ⟨fstcol, hfirstmem, by simp⟩
    have hfold := foldl_moves_spec fstcol.id now doomed.cards b cid hinv
      (fun h => hfirstne h.symm) ⟨doomed, hdoomedmem, hdoomedid, rfl⟩ hanyT
    unfold Board.remove_column
    rw [if_neg (by omega), hdoomed, hfirst]
    show ({ (doomed.cards.foldl
          (fun (acc : Board) card_id => (acc.move_card card_id fstcol.id now).1) b) with
        columns := (doomed.cards.foldl
          (fun (acc : Board) card_id => (acc.move_card card_id fstcol.id now).1)
            b).columns.eraseP (fun c => c.id == cid),
        updated_at := now }, true) = _
    rw [hfold]
    have hndcols := hinv.2.1
    have hcols : ((b.columns.map (fun col =>
        if col.id = cid then { col with cards := ([] : List String) }
        else if col.id = fstcol.id
        then { col with cards := col.cards ++ doomed.cards }
        else col)).eraseP (fun c => c.id == cid))
        = (b.columns.eraseP (fun c => c.id == cid)).map (fun col =>
            if col.id = fstcol.id
            then { col with cards := col.cards ++ doomed.cards }
            else col) := by
      rw [List.eraseP_map]
      have hpred : ∀ col ∈ b.columns,
          ((fun c => c.id == cid) ∘ (fun col =>
            if col.id = cid then { col with cards := ([] : List String) }
            else if col.id = fstcol.id
            then { col with cards := col.cards ++ doomed.cards }
            else col)) col = (fun c => c.id == cid) col := by
        intro col _
        by_cases h1 : col.id = cid
        · simp only [Function.comp_apply, if_pos h1]
        · rw [Function.comp_apply, if_neg h1]
          by_cases h2 : col.id = fstcol.id
          · rw [if_pos h2]
          · rw [if_neg h2]
      rw [eraseP_congr_mem _ _ _ hpred]
      refine List.map_congr_left (fun col hcol => ?_)
      have hne := mem_eraseP_col_ne b.columns cid hndcols col hcol
      rw [if_neg hne]
    show ({ b with
        columns := ((b.columns.map (fun (col : Column) =>
          if col.id = cid then { col with cards := ([] : List String) }
          else if col.id = fstcol.id
          then { col with cards := col.cards ++ doomed.cards }
          else col)).eraseP (fun (c : Column) => c.id == cid)),
        cards := b.cards.map (fun (c : Card) =>
          if c.column_id = cid then c.move_to fstcol.id now else c),
        updated_at := now } , true) = _
    rw [hcols]

/-- Witness for C8's success branch at the concrete two-card scenario. -/
theorem C8_remove_column_witness :
    ((((Board.new "test" "Test" 0).create_card "A" none none
        (some "in_progress") 1).2.create_card "B" none none
        (some "in_progress") 2).2.inductiveInv ∧
     1 < ((((Board.new "test" "Test" 0).create_card "A" none none
        (some "in_progress") 1).2.create_card "B" none none
        (some "in_progress") 2).2).columns.length ∧
     ((((Board.new "test" "Test" 0).create_card "A" none none
        (some "in_progress") 1).2.create_card "B" none none
        (some "in_progress") 2).2).columns.find? (fun c => c.id == "in_progress")
       = some { id := "in_progress", name := "In Progress", order := 1,
                cards := ["TES-001", "TES-002"] } ∧
     ((((Board.new "test" "Test" 0).create_card "A" none none
        (some "in_progress") 1).2.create_card "B" none none
        (some "in_progress") 2).2).columns.find? (fun c => c.id != "in_progress")
       = some { id := "todo", name := "To Do", order := 0, cards := [] }) ∧
    (((((Board.new "test" "Test" 0).create_card "A" none none
        (some "in_progress") 1).2.create_card "B" none none
        (some "in_progress") 2).2.remove_column "in_progress" 3).2 = true ∧
     ((((Board.new "test" "Test" 0).create_card "A" none none
        (some "in_progress") 1).2.create_card "B" none none
        (some "in_progress") 2).2.remove_column "in_progress" 3).1.columns.map
        Column.id = ["todo", "done"]) := by
  have h := (C8_remove_column
    ((((Board.new "test" "Test" 0).create_card "A" none none
      (some "in_progress") 1).2.create_card "B" none none
      (some "in_progress") 2).2) "in_progress" 3).2.2.1
    { id := "in_progress", name := "In Progress", order := 1,
      cards := ["TES-001", "TES-002"] }
    { id := "todo", name := "To Do", order := 0, cards := [] }
    (by decide) (by decide) (by decide) (by decide)
  refine ⟨⟨by decide, by decide, by decide, by decide⟩, ?_, ?_⟩
  · rw [h]
  · rw [h]
    decide

end Clicky
